import Mathlib

/-!
Shallow embedding of the group-membership / user-deletion core of the
school social platform backend.

The relational schema is taken from the drizzle schema
(`src/server/src/db/schema.ts`); rows become Lean structures and each
table becomes a list of rows inside a `DB` record, kept in storage order
(so "first row returned" is the head of the corresponding filter).
Timestamps are modelled as natural numbers; every call to `new Date()`
or SQL `NOW()` inside one handler invocation is modelled by the single
`now` argument of that handler.

Handlers are embedded from `src/server/src/handlers/delete_user.ts`,
`src/server/src/handlers/like_post.ts`, and the `joinGroup` /
`leaveGroup` implementation shipped in the repository (the second
embedded document of `src/server/src/schema.ts`; the declaration in
`src/server/src/handlers/join_group.ts` is only a placeholder).
-/

namespace SchoolSocial

/-- User roles, from the `user_role` enum of the schema. -/
inductive Role where
  | admin
  | student
  | teacher
  | alumni
  deriving DecidableEq, Repr

instance : BEq Role := ⟨fun a b => decide (a = b)⟩

instance : LawfulBEq Role where
  eq_of_beq := by intro a b h; simpa [BEq.beq] using h
  rfl := by intro a; simp [BEq.beq]

theorem Role.beq_iff {a b : Role} : (a == b) = true ↔ a = b := by
  simp [BEq.beq]

/-- A row of the `users` table. -/
structure User where
  id : Nat
  email : String
  password_hash : String
  first_name : String
  last_name : String
  role : Role
  profile_picture : Option String := none
  bio : Option String := none
  graduation_year : Option Nat := none
  department : Option String := none
  is_active : Bool := true
  created_at : Nat := 0
  updated_at : Nat := 0
  deriving DecidableEq, Repr

/-- A row of the `posts` table. -/
structure Post where
  id : Nat
  author_id : Nat
  content : String
  image_url : Option String := none
  video_url : Option String := none
  likes_count : Nat := 0
  comments_count : Nat := 0
  created_at : Nat := 0
  updated_at : Nat := 0
  deriving DecidableEq, Repr

/-- A row of the `post_likes` table. -/
structure PostLike where
  id : Nat
  post_id : Nat
  user_id : Nat
  created_at : Nat := 0
  deriving DecidableEq, Repr

/-- A row of the `comments` table. -/
structure Comment where
  id : Nat
  post_id : Nat
  author_id : Nat
  content : String
  created_at : Nat := 0
  updated_at : Nat := 0
  deriving DecidableEq, Repr

/-- A row of the `groups` table. -/
structure Group where
  id : Nat
  name : String
  description : Option String := none
  owner_id : Nat
  is_private : Bool := false
  member_count : Nat := 1
  created_at : Nat := 0
  updated_at : Nat := 0
  deriving DecidableEq, Repr

/-- A row of the `group_memberships` table. -/
structure Membership where
  id : Nat
  group_id : Nat
  user_id : Nat
  is_admin : Bool := false
  joined_at : Nat := 0
  deriving DecidableEq, Repr

/-- A row of the `private_messages` table. -/
structure PrivateMessage where
  id : Nat
  sender_id : Nat
  recipient_id : Nat
  content : String
  is_read : Bool := false
  created_at : Nat := 0
  deriving DecidableEq, Repr

/-- The whole relational state: one list of rows per table, in storage
order. -/
structure DB where
  users : List User := []
  posts : List Post := []
  postLikes : List PostLike := []
  comments : List Comment := []
  groups : List Group := []
  groupMemberships : List Membership := []
  privateMessages : List PrivateMessage := []
  deriving DecidableEq, Repr

/-- The error kinds raised by the handlers (section 7 of the spec). -/
inductive DbError where
  | Unauthorized
  | UserNotFound
  | CannotDeleteAdmin
  | GroupNotFound
  | NotAMember
  | AlreadyMember
  | PostNotFound
  deriving DecidableEq, Repr

/-- The ownership-succession step of `deleteUser`
(`src/server/src/handlers/delete_user.ts`, lines 50-103), run for one
group (identified by `gid`) owned by the departing user `u`.

Branches, first match wins, exactly as in the source:
* an admin membership of the group from a user other than `u` exists:
  ownership is transferred to the first such row, `updated_at` touched;
* otherwise any membership from a user other than `u` exists (the
  source takes `limit(1)`, i.e. the first row): that membership is
  promoted to admin and ownership is transferred to it;
* otherwise the group row is deleted; the schema declares
  `group_memberships.group_id` with `onDelete: cascade`, so the
  memberships of the group are deleted with it. -/
def resolveOwnedGroup (u now : Nat) (db : DB) (gid : Nat) : DB :=
  match db.groupMemberships.filter
      (fun m => m.group_id == gid && (m.is_admin && m.user_id != u)) with
  | a :: _ =>
    let gs := db.groups.map (fun g =>
      if g.id == gid then { g with owner_id := a.user_id, updated_at := now } else g)
    { db with groups := gs }
  | [] =>
    match db.groupMemberships.filter
        (fun m => m.group_id == gid && m.user_id != u) with
    | m :: _ =>
      let ms := db.groupMemberships.map (fun x =>
        if x.id == m.id then { x with is_admin := true } else x)
      let gs := db.groups.map (fun g =>
        if g.id == gid then { g with owner_id := m.user_id, updated_at := now } else g)
      { db with groupMemberships := ms, groups := gs }
    | [] =>
      let gs := db.groups.filter (fun g => g.id != gid)
      let ms := db.groupMemberships.filter (fun m => m.group_id != gid)
      { db with groups := gs, groupMemberships := ms }

/-- Step 1 of the `deleteUser` transaction: soft-delete the target user
(`is_active := false`, `updated_at` touched). -/
def deactivateUser (u now : Nat) (db : DB) : DB :=
  let us := db.users.map (fun x =>
    if x.id == u then { x with is_active := false, updated_at := now } else x)
  { db with users := us }

/-- Step 2 of the `deleteUser` transaction: run the succession policy on
every group owned by `u`, in storage order. -/
def resolveOwnedGroups (u now : Nat) (db : DB) : DB :=
  (db.groups.filter (fun g => g.owner_id == u)).foldl
    (fun d g => resolveOwnedGroup u now d g.id) db

/-- Step 3 of the `deleteUser` transaction: delete every membership row
of the target user, across all groups. -/
def removeUserMemberships (u : Nat) (db : DB) : DB :=
  { db with groupMemberships := db.groupMemberships.filter (fun m => m.user_id != u) }

/-- Step 4 of the `deleteUser` transaction: the raw SQL
`UPDATE groups SET member_count = (SELECT COUNT(*) ...), updated_at = NOW()`
of the source.  Note the statement has no WHERE clause: every group row
is recounted and touched. -/
def recountAllGroups (now : Nat) (db : DB) : DB :=
  let gs := db.groups.map (fun g =>
    { g with
      member_count := (db.groupMemberships.filter (fun m => m.group_id == g.id)).length,
      updated_at := now })
  { db with groups := gs }

/-- Step 5 of the `deleteUser` transaction: delete the target's private
messages, sent first, then received, as two separate deletes. -/
def purgeMessages (u : Nat) (db : DB) : DB :=
  let db1 := { db with privateMessages := db.privateMessages.filter (fun m => m.sender_id != u) }
  { db1 with privateMessages := db1.privateMessages.filter (fun m => m.recipient_id != u) }

/-- Step 6 of the `deleteUser` transaction: touch `updated_at` on every
post and comment authored by the target; nothing else changes. -/
def touchAuthored (u now : Nat) (db : DB) : DB :=
  let ps := db.posts.map (fun p =>
    if p.author_id == u then { p with updated_at := now } else p)
  let cs := db.comments.map (fun c =>
    if c.author_id == u then { c with updated_at := now } else c)
  { db with posts := ps, comments := cs }

/-- The transaction body of `deleteUser`
(`src/server/src/handlers/delete_user.ts`, lines 33-145): the six steps
in source order. -/
def deleteUserTx (u now : Nat) (db : DB) : DB :=
  touchAuthored u now
    (purgeMessages u
      (recountAllGroups now
        (removeUserMemberships u
          (resolveOwnedGroups u now
            (deactivateUser u now db)))))

/-- `deleteUser` (`src/server/src/handlers/delete_user.ts`): the three
precondition checks, in source order, then the transaction.  An error
result carries no state: a failed call leaves the store untouched. -/
def deleteUser (userId adminId now : Nat) (db : DB) : Except DbError DB :=
  if (db.users.filter
      (fun x => x.id == adminId && (x.role == Role.admin && x.is_active))).isEmpty then
    .error .Unauthorized
  else
    match db.users.filter (fun x => x.id == userId) with
    | [] => .error .UserNotFound
    | t :: _ =>
      if t.role == Role.admin then .error .CannotDeleteAdmin
      else .ok (deleteUserTx userId now db)

/-- `joinGroup`, embedded from the implementation in the second embedded
document of `src/server/src/schema.ts` (the declaration in
`src/server/src/handlers/join_group.ts` is only a placeholder): user
must exist (`UserNotFound`), group must exist (`GroupNotFound`), no
membership for the pair may exist (`AlreadyMember`); on success a
membership row with `is_admin = false` is inserted, then the group's
`member_count` is incremented and its `updated_at` touched, and the
inserted membership is returned. -/
def joinGroup (groupId userId now newId : Nat) (db : DB) : Except DbError (Membership × DB) :=
  if (db.users.filter (fun x => x.id == userId)).isEmpty then .error .UserNotFound
  else if (db.groups.filter (fun g => g.id == groupId)).isEmpty then .error .GroupNotFound
  else if !(db.groupMemberships.filter
      (fun m => m.group_id == groupId && m.user_id == userId)).isEmpty then
    .error .AlreadyMember
  else
    let m : Membership :=
      { id := newId, group_id := groupId, user_id := userId,
        is_admin := false, joined_at := now }
    let gs := db.groups.map (fun g =>
      if g.id == groupId then
        { g with member_count := g.member_count + 1, updated_at := now } else g)
    .ok (m, { db with groupMemberships := db.groupMemberships ++ [m], groups := gs })

/-- `leaveGroup`, embedded from the implementation in the second embedded
document of `src/server/src/schema.ts` (the declaration in
`src/server/src/handlers/join_group.ts` is only a placeholder):
preconditions in order (`UserNotFound`, `GroupNotFound`, `NotAMember`);
if the departing user is the group's owner, ownership is transferred to
the first other admin member, else to the first other member (who is
then promoted to admin), and if no other member exists nothing happens —
the source comments "the group will effectively become ownerless ...
we'll leave it for now", so an emptied group is NOT deleted.  Always,
afterwards: the membership rows matching (groupId, userId) are deleted
and the group's `member_count` decremented (`member_count` is a natural
here; the SQL decrement never targets a count of zero in a state where
the count matches the rows, since the departing membership exists). -/
def leaveGroup (groupId userId now : Nat) (db : DB) : Except DbError DB :=
  if (db.users.filter (fun x => x.id == userId)).isEmpty then .error .UserNotFound
  else
    match db.groups.filter (fun g => g.id == groupId) with
    | [] => .error .GroupNotFound
    | g :: _ =>
      if (db.groupMemberships.filter
          (fun m => m.group_id == groupId && m.user_id == userId)).isEmpty then
        .error .NotAMember
      else
        let db1 :=
          if g.owner_id == userId then
            match db.groupMemberships.filter
                (fun m => m.group_id == groupId && (m.is_admin && m.user_id != userId)) with
            | a :: _ =>
              let gs := db.groups.map (fun x =>
                if x.id == groupId then
                  { x with owner_id := a.user_id, updated_at := now } else x)
              { db with groups := gs }
            | [] =>
              match db.groupMemberships.filter
                  (fun m => m.group_id == groupId && m.user_id != userId) with
              | m :: _ =>
                let gs := db.groups.map (fun x =>
                  if x.id == groupId then
                    { x with owner_id := m.user_id, updated_at := now } else x)
                let ms := db.groupMemberships.map (fun x =>
                  if x.id == m.id then { x with is_admin := true } else x)
                { db with groups := gs, groupMemberships := ms }
              | [] => db
          else db
        let ms := db1.groupMemberships.filter
          (fun m => !(m.group_id == groupId && m.user_id == userId))
        let gs := db1.groups.map (fun x =>
          if x.id == groupId then
            { x with member_count := x.member_count - 1, updated_at := now } else x)
        .ok { db1 with groupMemberships := ms, groups := gs }

/-- `likePost` (`src/server/src/handlers/like_post.ts`, lines 6-56): if a
like for the pair already exists the first such row is returned and
nothing is written; otherwise the post must exist (`PostNotFound`), a
like row is inserted and the post's `likes_count` is set to the value
read before the insert, plus one. -/
def likePost (postId userId now newId : Nat) (db : DB) : Except DbError (PostLike × DB) :=
  match db.postLikes.filter (fun l => l.post_id == postId && l.user_id == userId) with
  | l :: _ => .ok (l, db)
  | [] =>
    match db.posts.filter (fun p => p.id == postId) with
    | [] => .error .PostNotFound
    | p :: _ =>
      let newLike : PostLike :=
        { id := newId, post_id := postId, user_id := userId, created_at := now }
      let ps := db.posts.map (fun q =>
        if q.id == postId then { q with likes_count := p.likes_count + 1 } else q)
      .ok (newLike, { db with postLikes := db.postLikes ++ [newLike], posts := ps })

/-- One operation of the membership core, for reasoning about sequences
of calls.  Each carries the identifiers and the timestamp / fresh row id
of the call. -/
inductive Op where
  | join (groupId userId now newId : Nat)
  | leave (groupId userId now : Nat)
  | delUser (userId adminId now : Nat)
  deriving DecidableEq, Repr

/-- Run one operation; a failed call leaves the state unchanged (errors
abort before touching storage). -/
def applyOp (db : DB) : Op → DB
  | .join g u n i =>
    match joinGroup g u n i db with
    | .ok (_, db1) => db1
    | .error _ => db
  | .leave g u n =>
    match leaveGroup g u n db with
    | .ok db1 => db1
    | .error _ => db
  | .delUser u a n =>
    match deleteUser u a n db with
    | .ok db1 => db1
    | .error _ => db

/-- Run a sequence of operations, left to right. -/
def applyOps (db : DB) (ops : List Op) : DB :=
  ops.foldl applyOp db

/-- The member-count invariant (spec I2): every group row's cached
`member_count` equals the number of membership rows referencing it. -/
def MCInv (db : DB) : Prop :=
  ∀ g ∈ db.groups,
    g.member_count = (db.groupMemberships.filter (fun m => m.group_id == g.id)).length

instance : DecidablePred MCInv := fun db =>
  inferInstanceAs (Decidable (∀ g ∈ db.groups, _))

/-- At most one membership row per (group, user) pair (spec section 3's
uniqueness invariant). -/
def PairUnique (db : DB) : Prop :=
  db.groupMemberships.Pairwise
    (fun m1 m2 => ¬(m1.group_id = m2.group_id ∧ m1.user_id = m2.user_id))

instance : DecidablePred PairUnique := fun db =>
  inferInstanceAs (Decidable (db.groupMemberships.Pairwise _))

/-! ## Concrete sample states

`dbW` is the cascade scenario of spec section 8: admin `1`; student `2`
owning group 1 (with an admin co-member), group 2 (with only a non-admin
co-member) and group 4 (alone), and a plain member of group 3; messages,
posts and comments to exercise the cascade.  `dbDup` is a state whose
member counts are consistent but which holds two membership rows for the
same (group, user) pair. -/

def dbW : DB :=
  { users :=
      [ { id := 1, email := "alice@school.test", password_hash := "h1",
          first_name := "Alice", last_name := "Adler", role := .admin },
        { id := 2, email := "bob@school.test", password_hash := "h2",
          first_name := "Bob", last_name := "Baker", role := .student },
        { id := 3, email := "carol@school.test", password_hash := "h3",
          first_name := "Carol", last_name := "Clay", role := .teacher },
        { id := 4, email := "dave@school.test", password_hash := "h4",
          first_name := "Dave", last_name := "Dunn", role := .student },
        { id := 5, email := "erin@school.test", password_hash := "h5",
          first_name := "Erin", last_name := "Ebbs", role := .student } ],
    posts :=
      [ { id := 1, author_id := 2, content := "by bob" },
        { id := 2, author_id := 3, content := "by carol" } ],
    postLikes := [],
    comments :=
      [ { id := 1, post_id := 1, author_id := 2, content := "bob says" } ],
    groups :=
      [ { id := 1, name := "Chess", owner_id := 2, member_count := 2 },
        { id := 2, name := "Drama", owner_id := 2, member_count := 2 },
        { id := 3, name := "Math", owner_id := 5, member_count := 2 },
        { id := 4, name := "Solo", owner_id := 2, member_count := 1 } ],
    groupMemberships :=
      [ { id := 1, group_id := 1, user_id := 2, is_admin := true },
        { id := 2, group_id := 1, user_id := 3, is_admin := true },
        { id := 3, group_id := 2, user_id := 2, is_admin := true },
        { id := 4, group_id := 2, user_id := 4, is_admin := false },
        { id := 5, group_id := 3, user_id := 5, is_admin := true },
        { id := 6, group_id := 3, user_id := 2, is_admin := false },
        { id := 7, group_id := 4, user_id := 2, is_admin := true } ],
    privateMessages :=
      [ { id := 1, sender_id := 2, recipient_id := 3, content := "hi" },
        { id := 2, sender_id := 3, recipient_id := 2, content := "yo" },
        { id := 3, sender_id := 3, recipient_id := 4, content := "keep" } ] }

/-- The membership created when user 4 joins group 1 on `dbW` at time
100 with fresh row id 50. -/
def mW : Membership :=
  { id := 50, group_id := 1, user_id := 4, is_admin := false, joined_at := 100 }

/-- `dbW` after user 4 joined group 1. -/
def dbW2 : DB := applyOp dbW (Op.join 1 4 100 50)

/-- `dbW` after user 3 liked post 1 (fresh row id 60, time 100). -/
def dbW3 : DB :=
  match likePost 1 3 100 60 dbW with
  | .ok (_, d) => d
  | .error _ => dbW

/-- The like row created by user 3 on post 1. -/
def lW : PostLike := { id := 60, post_id := 1, user_id := 3, created_at := 100 }

/-- `dbW` after the owner (user 2) left group 4, of which they were the
only member: the membership row is gone but the group row survives,
ownerless, with `member_count` zero. -/
def dbW4 : DB := applyOp dbW (Op.leave 4 2 100)

def dbDup : DB :=
  { users :=
      [ { id := 5, email := "erin@school.test", password_hash := "h5",
          first_name := "Erin", last_name := "Ebbs", role := .student },
        { id := 9, email := "owen@school.test", password_hash := "h9",
          first_name := "Owen", last_name := "Oaks", role := .student } ],
    groups :=
      [ { id := 1, name := "Chess", owner_id := 9, member_count := 2 } ],
    groupMemberships :=
      [ { id := 1, group_id := 1, user_id := 5 },
        { id := 2, group_id := 1, user_id := 5 } ] }

/-! ## List toolbox -/

/-- Filtering after a map that fixes the kept rows and preserves the
predicate is the same as filtering the original list. -/
theorem filter_map_eq_filter {α : Type} (l : List α) (f : α → α) (p : α → Bool)
    (h1 : ∀ x ∈ l, p x = true → f x = x) (h2 : ∀ x ∈ l, p (f x) = p x) :
    (l.map f).filter p = l.filter p := by
  induction l with
  | nil => rfl
  | cons a t ih =>
    have ha2 := h2 a (by simp)
    by_cases hp : p a = true
    · simp [List.filter_cons, hp, ha2, h1 a (by simp) hp]
      exact ih (fun x hx => h1 x (by simp [hx])) (fun x hx => h2 x (by simp [hx]))
    · have : p a = false := by simpa using hp
      simp [List.filter_cons, this, ha2]
      exact ih (fun x hx => h1 x (by simp [hx])) (fun x hx => h2 x (by simp [hx]))

/-- A map that preserves the predicate commutes with the filter. -/
theorem filter_map_comm {α : Type} (l : List α) (f : α → α) (p : α → Bool)
    (h : ∀ x ∈ l, p (f x) = p x) :
    (l.map f).filter p = (l.filter p).map f := by
  induction l with
  | nil => rfl
  | cons a t ih =>
    have ha := h a (by simp)
    by_cases hp : p a = true
    · simp [List.filter_cons, hp, ha, ih (fun x hx => h x (by simp [hx]))]
    · have hpf : p a = false := by simpa using hp
      simp [List.filter_cons, hpf, ha, ih (fun x hx => h x (by simp [hx]))]

/-- A pre-filter that keeps everything the post-filter keeps can be
dropped. -/
theorem filter_filter_of_imp {α : Type} (l : List α) (p q : α → Bool)
    (h : ∀ x ∈ l, p x = true → q x = true) :
    (l.filter q).filter p = l.filter p := by
  induction l with
  | nil => rfl
  | cons a t ih =>
    have ih' := ih (fun x hx => h x (by simp [hx]))
    by_cases hq : q a = true
    · by_cases hp : p a = true
      · simp [List.filter_cons, hp, hq, ih']
      · have : p a = false := by simpa using hp
        simp [List.filter_cons, this, hq, ih']
    · have hqf : q a = false := by simpa using hq
      have hpf : p a = false := by
        by_contra hc
        exact hq (h a (by simp) (by simpa using hc))
      simp [List.filter_cons, hqf, hpf, ih']

/-- Filtering by a conjunction is filtering twice. -/
theorem filter_and_eq {α : Type} (l : List α) (p q : α → Bool) :
    l.filter (fun x => p x && q x) = (l.filter p).filter q := by
  induction l with
  | nil => rfl
  | cons a t ih =>
    by_cases hp : p a = true
    · by_cases hq : q a = true
      · simp [List.filter_cons, hp, hq, ih]
      · have : q a = false := by simpa using hq
        simp [List.filter_cons, hp, this, ih]
    · have : p a = false := by simpa using hp
      simp [List.filter_cons, this, ih]

/-- With pairwise-distinct keys, filtering on the key of a present row
returns exactly that row. -/
theorem filter_eq_singleton_of_nodup {α β : Type} [DecidableEq β]
    (l : List α) (f : α → β) (x : α)
    (hnd : (l.map f).Nodup) (hx : x ∈ l) :
    l.filter (fun y => f y == f x) = [x] := by
  induction l with
  | nil => cases hx
  | cons a t ih =>
    have hnd' : (t.map f).Nodup := (List.nodup_cons.mp (by simpa using hnd)).2
    have hha : f a ∉ t.map f := (List.nodup_cons.mp (by simpa using hnd)).1
    rcases List.mem_cons.mp hx with h | h
    · subst h
      have hnil : t.filter (fun y => f y == f x) = [] := by
        apply List.filter_eq_nil_iff.mpr
        intro y hy hc
        have hfy : f y = f x := by simpa using hc
        exact hha (hfy ▸ List.mem_map_of_mem f hy)
      simp [List.filter_cons, hnil]
    · have hne : (f a == f x) = false := by
        by_contra hc
        have : f a = f x := by simpa using hc
        exact hha (this ▸ List.mem_map_of_mem f h)
      simp [List.filter_cons, hne, ih hnd' h]

/-- The length of a list splits along any Boolean predicate. -/
theorem length_filter_split {α : Type} (l : List α) (p : α → Bool) :
    l.length = (l.filter p).length + (l.filter (fun x => !(p x))).length := by
  induction l with
  | nil => rfl
  | cons a t ih =>
    by_cases hp : p a = true
    · simp [List.filter_cons, hp, ih]; omega
    · have : p a = false := by simpa using hp
      simp [List.filter_cons, this, ih]; omega

/-- A pairwise-incompatible list whose elements are all mutually
compatible has at most one element. -/
theorem length_le_one_of_pairwise_not {α : Type} {R : α → α → Prop} {l : List α}
    (hp : l.Pairwise (fun a b => ¬ R a b))
    (hall : ∀ a ∈ l, ∀ b ∈ l, R a b) : l.length ≤ 1 := by
  match l with
  | [] => simp
  | [a] => simp
  | a :: b :: t =>
    exact absurd (hall a (by simp) b (by simp))
      ((List.pairwise_cons.mp hp).1 b (by simp))

/-! ## Frame facts about the succession resolver -/

@[simp] theorem resolveOwnedGroup_users (u now gid : Nat) (db : DB) :
    (resolveOwnedGroup u now db gid).users = db.users := by
  unfold resolveOwnedGroup
  repeat' split
  all_goals rfl

@[simp] theorem resolveOwnedGroup_posts (u now gid : Nat) (db : DB) :
    (resolveOwnedGroup u now db gid).posts = db.posts := by
  unfold resolveOwnedGroup
  repeat' split
  all_goals rfl

@[simp] theorem resolveOwnedGroup_comments (u now gid : Nat) (db : DB) :
    (resolveOwnedGroup u now db gid).comments = db.comments := by
  unfold resolveOwnedGroup
  repeat' split
  all_goals rfl

@[simp] theorem resolveOwnedGroup_postLikes (u now gid : Nat) (db : DB) :
    (resolveOwnedGroup u now db gid).postLikes = db.postLikes := by
  unfold resolveOwnedGroup
  repeat' split
  all_goals rfl

@[simp] theorem resolveOwnedGroup_privateMessages (u now gid : Nat) (db : DB) :
    (resolveOwnedGroup u now db gid).privateMessages = db.privateMessages := by
  unfold resolveOwnedGroup
  repeat' split
  all_goals rfl

/-- The resolver keeps membership row ids pairwise distinct. -/
theorem resolveOwnedGroup_mids (u now gid : Nat) (db : DB)
    (h : (db.groupMemberships.map (fun m => m.id)).Nodup) :
    ((resolveOwnedGroup u now db gid).groupMemberships.map (fun m => m.id)).Nodup := by
  cases hA : db.groupMemberships.filter
      (fun m => m.group_id == gid && (m.is_admin && m.user_id != u)) with
  | cons a tl => simpa [resolveOwnedGroup, hA] using h
  | nil =>
    cases hB : db.groupMemberships.filter
        (fun m => m.group_id == gid && m.user_id != u) with
    | cons m tl =>
      have hids : (db.groupMemberships.map
          (fun x => if x.id == m.id then { x with is_admin := true } else x)).map
            (fun mm => mm.id) = db.groupMemberships.map (fun mm => mm.id) := by
        rw [List.map_map]
        apply List.map_congr_left
        intro x _
        by_cases hc : x.id = m.id <;> simp [hc]
      simp only [resolveOwnedGroup, hA, hB]
      rw [hids]
      exact h
    | nil =>
      have hsub : List.Sublist
          (db.groupMemberships.filter (fun mm => mm.group_id != gid))
          db.groupMemberships := List.filter_sublist _
      simp only [resolveOwnedGroup, hA, hB]
      exact (hsub.map (fun mm => mm.id)).nodup h

@[simp] theorem foldResolve_users (u now : Nat) (gs : List Group) (db : DB) :
    (gs.foldl (fun d g => resolveOwnedGroup u now d g.id) db).users = db.users := by
  induction gs generalizing db with
  | nil => rfl
  | cons g t ih => simp [List.foldl_cons, ih]

@[simp] theorem foldResolve_posts (u now : Nat) (gs : List Group) (db : DB) :
    (gs.foldl (fun d g => resolveOwnedGroup u now d g.id) db).posts = db.posts := by
  induction gs generalizing db with
  | nil => rfl
  | cons g t ih => simp [List.foldl_cons, ih]

@[simp] theorem foldResolve_comments (u now : Nat) (gs : List Group) (db : DB) :
    (gs.foldl (fun d g => resolveOwnedGroup u now d g.id) db).comments = db.comments := by
  induction gs generalizing db with
  | nil => rfl
  | cons g t ih => simp [List.foldl_cons, ih]

@[simp] theorem foldResolve_postLikes (u now : Nat) (gs : List Group) (db : DB) :
    (gs.foldl (fun d g => resolveOwnedGroup u now d g.id) db).postLikes = db.postLikes := by
  induction gs generalizing db with
  | nil => rfl
  | cons g t ih => simp [List.foldl_cons, ih]

@[simp] theorem foldResolve_privateMessages (u now : Nat) (gs : List Group) (db : DB) :
    (gs.foldl (fun d g => resolveOwnedGroup u now d g.id) db).privateMessages
      = db.privateMessages := by
  induction gs generalizing db with
  | nil => rfl
  | cons g t ih => simp [List.foldl_cons, ih]

/-- The resolver run for one group id does not disturb the group rows or
the membership rows of a different group id, and does not disturb
membership-id distinctness. -/
theorem resolveOwnedGroup_frame (u now a gid : Nat) (db : DB) (hne : a ≠ gid)
    (hm : (db.groupMemberships.map (fun m => m.id)).Nodup) :
    (resolveOwnedGroup u now db a).groups.filter (fun g => g.id == gid)
      = db.groups.filter (fun g => g.id == gid)
    ∧ (resolveOwnedGroup u now db a).groupMemberships.filter (fun m => m.group_id == gid)
      = db.groupMemberships.filter (fun m => m.group_id == gid) := by
  cases hA : db.groupMemberships.filter
      (fun m => m.group_id == a && (m.is_admin && m.user_id != u)) with
  | cons w tl =>
    refine ⟨?_, by simp [resolveOwnedGroup, hA]⟩
    simp only [resolveOwnedGroup, hA]
    apply filter_map_eq_filter
    · intro x _ hx
      have : x.id = gid := by simpa using hx
      simp [this, Ne.symm hne]
    · intro x _
      by_cases hc : (x.id == a) = true <;> simp [hc]
  | nil =>
    cases hB : db.groupMemberships.filter
        (fun m => m.group_id == a && m.user_id != u) with
    | cons w tl =>
      have hwmem : w ∈ db.groupMemberships :=
        List.mem_of_mem_filter (hB ▸ List.mem_cons_self w tl)
      have hwgrp : w.group_id = a := by
        have := List.of_mem_filter (hB ▸ List.mem_cons_self w tl)
        simp at this
        exact this.1
      constructor
      · simp only [resolveOwnedGroup, hA, hB]
        apply filter_map_eq_filter
        · intro x _ hx
          have : x.id = gid := by simpa using hx
          simp [this, Ne.symm hne]
        · intro x _
          by_cases hc : (x.id == a) = true <;> simp [hc]
      · simp only [resolveOwnedGroup, hA, hB]
        apply filter_map_eq_filter
        · intro x hxl hx
          have hxg : x.group_id = gid := by simpa using hx
          by_cases hc : (x.id == w.id) = true
          · have hxw : x = w :=
              List.inj_on_of_nodup_map hm hxl hwmem (by simpa using hc)
            exact absurd (hxw ▸ hxg) (hwgrp ▸ fun hgg => hne (hgg ▸ rfl))
          · simp [hc]
        · intro x _
          by_cases hc : (x.id == w.id) = true <;> simp [hc]
    | nil =>
      constructor
      · simp only [resolveOwnedGroup, hA, hB]
        apply filter_filter_of_imp
        intro x _ hx
        have : x.id = gid := by simpa using hx
        simp [this, Ne.symm hne]
      · simp only [resolveOwnedGroup, hA, hB]
        apply filter_filter_of_imp
        intro x _ hx
        have : x.group_id = gid := by simpa using hx
        simp [this, Ne.symm hne]

/-- Running the resolver over a list of groups none of which has id
`gid` does not disturb the group rows or membership rows of `gid`, and
keeps membership ids distinct. -/
theorem foldResolve_frame (u now gid : Nat) (gs : List Group) (db : DB)
    (h : ∀ g' ∈ gs, g'.id ≠ gid)
    (hm : (db.groupMemberships.map (fun m => m.id)).Nodup) :
    (gs.foldl (fun d g => resolveOwnedGroup u now d g.id) db).groups.filter
        (fun g => g.id == gid)
      = db.groups.filter (fun g => g.id == gid)
    ∧ (gs.foldl (fun d g => resolveOwnedGroup u now d g.id) db).groupMemberships.filter
        (fun m => m.group_id == gid)
      = db.groupMemberships.filter (fun m => m.group_id == gid)
    ∧ ((gs.foldl (fun d g => resolveOwnedGroup u now d g.id) db).groupMemberships.map
        (fun m => m.id)).Nodup := by
  induction gs generalizing db with
  | nil => exact ⟨rfl, rfl, hm⟩
  | cons g t ih =>
    have hg : g.id ≠ gid := h g (by simp)
    have hstep := resolveOwnedGroup_frame u now g.id gid db hg hm
    have hmid := resolveOwnedGroup_mids u now g.id db hm
    have ihh := ih (resolveOwnedGroup u now db g.id)
      (fun g' hg' => h g' (by simp [hg'])) hmid
    simp only [List.foldl_cons]
    exact ⟨ihh.1.trans hstep.1, ihh.2.1.trans hstep.2, ihh.2.2⟩

set_option maxHeartbeats 2000000 in
/-- What the ownership-succession pass of `deleteUser` does to one group
owned by the departing user, stated against the group's membership rows
in the incoming state: the three policy branches of the source, first
match wins. -/
theorem resolveOwnedGroups_spec (u now : Nat) (db : DB) (g : Group)
    (hgids : (db.groups.map (fun x => x.id)).Nodup)
    (hmids : (db.groupMemberships.map (fun m => m.id)).Nodup)
    (hg : g ∈ db.groups) (hown : g.owner_id = u) :
    match db.groupMemberships.filter
        (fun m => m.group_id == g.id && (m.is_admin && m.user_id != u)),
      db.groupMemberships.filter
        (fun m => m.group_id == g.id && m.user_id != u) with
    | a :: _, _ =>
      (resolveOwnedGroups u now db).groups.filter (fun x => x.id == g.id)
        = [{ g with owner_id := a.user_id, updated_at := now }]
      ∧ a ∈ (resolveOwnedGroups u now db).groupMemberships
    | [], m :: _ =>
      (resolveOwnedGroups u now db).groups.filter (fun x => x.id == g.id)
        = [{ g with owner_id := m.user_id, updated_at := now }]
      ∧ { m with is_admin := true } ∈ (resolveOwnedGroups u now db).groupMemberships
    | [], [] =>
      (resolveOwnedGroups u now db).groups.filter (fun x => x.id == g.id) = []
      ∧ (resolveOwnedGroups u now db).groupMemberships.filter
          (fun m => m.group_id == g.id) = [] := by
  have hgos : g ∈ db.groups.filter (fun x => x.owner_id == u) :=
    List.mem_filter.mpr ⟨hg, by simp [hown]⟩
  have hsubos : List.Sublist (db.groups.filter (fun x => x.owner_id == u)) db.groups :=
    List.filter_sublist _
  have hosnd : ((db.groups.filter (fun x => x.owner_id == u)).map (fun x => x.id)).Nodup :=
    (hsubos.map (fun x => x.id)).nodup hgids
  obtain ⟨l1, l2, hdec⟩ := List.append_of_mem hgos
  have hnd2 := hdec ▸ hosnd
  rw [List.map_append, List.map_cons] at hnd2
  obtain ⟨-, hndr, hdisj⟩ := List.nodup_append.mp hnd2
  have hl1 : ∀ x ∈ l1, x.id ≠ g.id := by
    intro x hx hc
    exact hdisj (List.mem_map_of_mem _ hx) (by simp [hc])
  have hl2 : ∀ x ∈ l2, x.id ≠ g.id := by
    intro x hx hc
    exact (List.nodup_cons.mp hndr).1 (by
      have : g.id ∈ l2.map (fun x => x.id) := hc ▸ List.mem_map_of_mem _ hx
      exact this)
  have hfold : resolveOwnedGroups u now db
      = l2.foldl (fun d x => resolveOwnedGroup u now d x.id)
          (resolveOwnedGroup u now
            (l1.foldl (fun d x => resolveOwnedGroup u now d x.id) db) g.id) := by
    show (db.groups.filter (fun x => x.owner_id == u)).foldl _ db = _
    rw [hdec, List.foldl_append, List.foldl_cons]
  have hfr1 := foldResolve_frame u now g.id l1 db hl1 hmids
  have hdbg : db.groups.filter (fun x => x.id == g.id) = [g] :=
    filter_eq_singleton_of_nodup db.groups (fun x => x.id) g hgids hg
  have hAg := hfr1.1.trans hdbg
  have hAm := hfr1.2.1
  have hAnd := hfr1.2.2
  cases hA : db.groupMemberships.filter
      (fun m => m.group_id == g.id && (m.is_admin && m.user_id != u)) with
  | cons a tl =>
    have h1A : (l1.foldl (fun d x => resolveOwnedGroup u now d x.id)
          db).groupMemberships.filter
        (fun m => m.group_id == g.id && (m.is_admin && m.user_id != u)) = a :: tl := by
      rw [filter_and_eq, hAm, ← filter_and_eq, hA]
    have hdbB : resolveOwnedGroup u now
        (l1.foldl (fun d x => resolveOwnedGroup u now d x.id) db) g.id
        = { l1.foldl (fun d x => resolveOwnedGroup u now d x.id) db with
            groups := (l1.foldl (fun d x => resolveOwnedGroup u now d x.id) db).groups.map
              (fun x => if x.id == g.id then
                { x with owner_id := a.user_id, updated_at := now } else x) } := by
      rw [resolveOwnedGroup, h1A]
    have hBg : (resolveOwnedGroup u now
        (l1.foldl (fun d x => resolveOwnedGroup u now d x.id) db) g.id).groups.filter
          (fun x => x.id == g.id)
        = [{ g with owner_id := a.user_id, updated_at := now }] := by
      rw [hdbB]
      show ((l1.foldl (fun d x => resolveOwnedGroup u now d x.id) db).groups.map _).filter _
        = _
      rw [filter_map_comm _ _ _ (fun x _ => by by_cases hc : x.id = g.id <;> simp [hc])]
      rw [hAg]
      simp
    have hamem : a ∈ (resolveOwnedGroup u now
        (l1.foldl (fun d x => resolveOwnedGroup u now d x.id) db) g.id).groupMemberships.filter
          (fun m => m.group_id == g.id) := by
      rw [hdbB]
      show a ∈ (l1.foldl (fun d x => resolveOwnedGroup u now d x.id) db).groupMemberships.filter
        (fun m => m.group_id == g.id)
      rw [hAm]
      have ha1 : a ∈ db.groupMemberships.filter
          (fun m => m.group_id == g.id && (m.is_admin && m.user_id != u)) := by
        rw [hA]; exact List.mem_cons_self a tl
      rw [filter_and_eq] at ha1
      exact List.mem_of_mem_filter ha1
    have hndB := resolveOwnedGroup_mids u now g.id
      (l1.foldl (fun d x => resolveOwnedGroup u now d x.id) db) hAnd
    have hfr2 := foldResolve_frame u now g.id l2
      (resolveOwnedGroup u now (l1.foldl (fun d x => resolveOwnedGroup u now d x.id) db) g.id)
      hl2 hndB
    refine ⟨?_, ?_⟩
    · rw [hfold]
      exact hfr2.1.trans hBg
    · rw [hfold]
      have hfin := hamem
      rw [← hfr2.2.1] at hfin
      exact List.mem_of_mem_filter hfin
  | nil =>
    have h1A : (l1.foldl (fun d x => resolveOwnedGroup u now d x.id)
          db).groupMemberships.filter
        (fun m => m.group_id == g.id && (m.is_admin && m.user_id != u)) = [] := by
      rw [filter_and_eq, hAm, ← filter_and_eq, hA]
    cases hB : db.groupMemberships.filter
        (fun m => m.group_id == g.id && m.user_id != u) with
    | cons m tl =>
      have h1B : (l1.foldl (fun d x => resolveOwnedGroup u now d x.id)
            db).groupMemberships.filter
          (fun m => m.group_id == g.id && m.user_id != u) = m :: tl := by
        rw [filter_and_eq, hAm, ← filter_and_eq, hB]
      have hdbB : resolveOwnedGroup u now
          (l1.foldl (fun d x => resolveOwnedGroup u now d x.id) db) g.id
          = { l1.foldl (fun d x => resolveOwnedGroup u now d x.id) db with
              groupMemberships :=
                (l1.foldl (fun d x => resolveOwnedGroup u now d x.id) db).groupMemberships.map
                  (fun x => if x.id == m.id then { x with is_admin := true } else x),
              groups := (l1.foldl (fun d x => resolveOwnedGroup u now d x.id) db).groups.map
                (fun x => if x.id == g.id then
                  { x with owner_id := m.user_id, updated_at := now } else x) } := by
        rw [resolveOwnedGroup, h1A, h1B]
      have hmdb : m ∈ db.groupMemberships.filter
          (fun x => x.group_id == g.id && x.user_id != u) := by
        rw [hB]; exact List.mem_cons_self m tl
      have hmgrp : m.group_id = g.id := by
        have := List.of_mem_filter hmdb
        simp at this
        exact this.1
      have hBg : (resolveOwnedGroup u now
          (l1.foldl (fun d x => resolveOwnedGroup u now d x.id) db) g.id).groups.filter
            (fun x => x.id == g.id)
          = [{ g with owner_id := m.user_id, updated_at := now }] := by
        rw [hdbB]
        show ((l1.foldl (fun d x => resolveOwnedGroup u now d x.id) db).groups.map _).filter _
          = _
        rw [filter_map_comm _ _ _ (fun x _ => by by_cases hc : x.id = g.id <;> simp [hc])]
        rw [hAg]
        simp
      have hmmem : { m with is_admin := true } ∈ (resolveOwnedGroup u now
          (l1.foldl (fun d x => resolveOwnedGroup u now d x.id) db)
            g.id).groupMemberships.filter (fun x => x.group_id == g.id) := by
      -- the promoted row is the image of m under the promotion map
        rw [hdbB]
        apply List.mem_filter.mpr
        constructor
        · show { m with is_admin := true }
            ∈ (l1.foldl (fun d x => resolveOwnedGroup u now d x.id) db).groupMemberships.map
              (fun x => if x.id == m.id then { x with is_admin := true } else x)
          have hmA : m ∈ (l1.foldl (fun d x => resolveOwnedGroup u now d x.id)
              db).groupMemberships := by
            have ha1 : m ∈ db.groupMemberships.filter (fun x => x.group_id == g.id) := by
              have := hmdb
              rw [filter_and_eq] at this
              exact List.mem_of_mem_filter this
            have : m ∈ (l1.foldl (fun d x => resolveOwnedGroup u now d x.id)
                db).groupMemberships.filter (fun x => x.group_id == g.id) := by
              rw [hAm]; exact ha1
            exact List.mem_of_mem_filter this
          have himg := List.mem_map_of_mem
            (fun x => if x.id == m.id then { x with is_admin := true } else x) hmA
          simpa using himg
        · simp [hmgrp]
      have hndB := resolveOwnedGroup_mids u now g.id
        (l1.foldl (fun d x => resolveOwnedGroup u now d x.id) db) hAnd
      have hfr2 := foldResolve_frame u now g.id l2
        (resolveOwnedGroup u now
          (l1.foldl (fun d x => resolveOwnedGroup u now d x.id) db) g.id)
        hl2 hndB
      refine ⟨?_, ?_⟩
      · rw [hfold]
        exact hfr2.1.trans hBg
      · rw [hfold]
        have hfin := hmmem
        rw [← hfr2.2.1] at hfin
        exact List.mem_of_mem_filter hfin
    | nil =>
      have h1B : (l1.foldl (fun d x => resolveOwnedGroup u now d x.id)
            db).groupMemberships.filter
          (fun m => m.group_id == g.id && m.user_id != u) = [] := by
        rw [filter_and_eq, hAm, ← filter_and_eq, hB]
      have hdbB : resolveOwnedGroup u now
          (l1.foldl (fun d x => resolveOwnedGroup u now d x.id) db) g.id
          = { l1.foldl (fun d x => resolveOwnedGroup u now d x.id) db with
              groups := (l1.foldl (fun d x => resolveOwnedGroup u now d x.id)
                db).groups.filter (fun x => x.id != g.id),
              groupMemberships :=
                (l1.foldl (fun d x => resolveOwnedGroup u now d x.id)
                  db).groupMemberships.filter (fun x => x.group_id != g.id) } := by
        rw [resolveOwnedGroup, h1A, h1B]
      have hBg : (resolveOwnedGroup u now
          (l1.foldl (fun d x => resolveOwnedGroup u now d x.id) db) g.id).groups.filter
            (fun x => x.id == g.id) = [] := by
        rw [hdbB]
        apply List.filter_eq_nil_iff.mpr
        intro x hx hc
        have h1 := List.of_mem_filter hx
        simp at h1
        exact h1 (by simpa using hc)
      have hBm : (resolveOwnedGroup u now
          (l1.foldl (fun d x => resolveOwnedGroup u now d x.id) db) g.id).groupMemberships.filter
            (fun x => x.group_id == g.id) = [] := by
        rw [hdbB]
        apply List.filter_eq_nil_iff.mpr
        intro x hx hc
        have h1 := List.of_mem_filter hx
        simp at h1
        exact h1 (by simpa using hc)
      have hndB := resolveOwnedGroup_mids u now g.id
        (l1.foldl (fun d x => resolveOwnedGroup u now d x.id) db) hAnd
      have hfr2 := foldResolve_frame u now g.id l2
        (resolveOwnedGroup u now
          (l1.foldl (fun d x => resolveOwnedGroup u now d x.id) db) g.id)
        hl2 hndB
      refine ⟨?_, ?_⟩
      · rw [hfold]
        exact hfr2.1.trans hBg
      · rw [hfold]
        exact hfr2.2.1.trans hBm

/-! ## Projections of the whole deletion transaction -/

theorem deleteUserTx_users (u now : Nat) (db : DB) :
    (deleteUserTx u now db).users
      = db.users.map (fun x =>
          if x.id == u then { x with is_active := false, updated_at := now } else x) := by
  simp [deleteUserTx, touchAuthored, purgeMessages, recountAllGroups,
    removeUserMemberships, resolveOwnedGroups, deactivateUser]

theorem deleteUserTx_posts (u now : Nat) (db : DB) :
    (deleteUserTx u now db).posts
      = db.posts.map (fun p =>
          if p.author_id == u then { p with updated_at := now } else p) := by
  simp [deleteUserTx, touchAuthored, purgeMessages, recountAllGroups,
    removeUserMemberships, resolveOwnedGroups, deactivateUser]

theorem deleteUserTx_comments (u now : Nat) (db : DB) :
    (deleteUserTx u now db).comments
      = db.comments.map (fun c =>
          if c.author_id == u then { c with updated_at := now } else c) := by
  simp [deleteUserTx, touchAuthored, purgeMessages, recountAllGroups,
    removeUserMemberships, resolveOwnedGroups, deactivateUser]

theorem deleteUserTx_privateMessages (u now : Nat) (db : DB) :
    (deleteUserTx u now db).privateMessages
      = (db.privateMessages.filter (fun m => m.sender_id != u)).filter
          (fun m => m.recipient_id != u) := by
  simp [deleteUserTx, touchAuthored, purgeMessages, recountAllGroups,
    removeUserMemberships, resolveOwnedGroups, deactivateUser]

theorem deleteUserTx_groupMemberships (u now : Nat) (db : DB) :
    (deleteUserTx u now db).groupMemberships
      = (resolveOwnedGroups u now (deactivateUser u now db)).groupMemberships.filter
          (fun m => m.user_id != u) := by
  simp [deleteUserTx, touchAuthored, purgeMessages, recountAllGroups,
    removeUserMemberships]

theorem deleteUserTx_groups (u now : Nat) (db : DB) :
    (deleteUserTx u now db).groups
      = (resolveOwnedGroups u now (deactivateUser u now db)).groups.map (fun g =>
          { g with
            member_count :=
              (((resolveOwnedGroups u now (deactivateUser u now db)).groupMemberships.filter
                (fun m => m.user_id != u)).filter (fun m => m.group_id == g.id)).length,
            updated_at := now }) := by
  simp [deleteUserTx, touchAuthored, purgeMessages, recountAllGroups,
    removeUserMemberships]

/-- Successful `deleteUser` runs the transaction, and a user row with the
target id existed. -/
theorem deleteUser_ok_inv (userId adminId now : Nat) (db : DB) (db' : DB)
    (h : deleteUser userId adminId now db = .ok db') :
    db' = deleteUserTx userId now db ∧ ∃ x ∈ db.users, x.id = userId := by
  simp only [deleteUser] at h
  split at h
  · simp at h
  · cases hflt : db.users.filter (fun x => x.id == userId) with
    | nil => rw [hflt] at h; simp at h
    | cons t rest =>
      rw [hflt] at h
      have ht : t ∈ db.users.filter (fun x => x.id == userId) := by
        rw [hflt]; exact List.mem_cons_self t rest
      have htm : t ∈ db.users := List.mem_of_mem_filter ht
      have htid : t.id = userId := by simpa using List.of_mem_filter ht
      split at h
      · simp at h
      · split at h
        · simp at h
        · refine ⟨?_, t, htm, htid⟩
          injection h with h1
          exact h1.symm

/-- Group-row frame for the resolver that needs no fact about membership
ids: running it for a different group id leaves the rows of `gid`
untouched. -/
theorem resolveOwnedGroup_groups_frame (u now a gid : Nat) (db : DB) (hne : a ≠ gid) :
    (resolveOwnedGroup u now db a).groups.filter (fun g => g.id == gid)
      = db.groups.filter (fun g => g.id == gid) := by
  cases hA : db.groupMemberships.filter
      (fun m => m.group_id == a && (m.is_admin && m.user_id != u)) with
  | cons w tl =>
    simp only [resolveOwnedGroup, hA]
    apply filter_map_eq_filter
    · intro x _ hx
      have : x.id = gid := by simpa using hx
      simp [this, Ne.symm hne]
    · intro x _
      by_cases hc : (x.id == a) = true <;> simp [hc]
  | nil =>
    cases hB : db.groupMemberships.filter
        (fun m => m.group_id == a && m.user_id != u) with
    | cons w tl =>
      simp only [resolveOwnedGroup, hA, hB]
      apply filter_map_eq_filter
      · intro x _ hx
        have : x.id = gid := by simpa using hx
        simp [this, Ne.symm hne]
      · intro x _
        by_cases hc : (x.id == a) = true <;> simp [hc]
    | nil =>
      simp only [resolveOwnedGroup, hA, hB]
      apply filter_filter_of_imp
      intro x _ hx
      have : x.id = gid := by simpa using hx
      simp [this, Ne.symm hne]

theorem foldResolve_groups_frame (u now gid : Nat) (gs : List Group) (db : DB)
    (h : ∀ g' ∈ gs, g'.id ≠ gid) :
    (gs.foldl (fun d g => resolveOwnedGroup u now d g.id) db).groups.filter
        (fun g => g.id == gid)
      = db.groups.filter (fun g => g.id == gid) := by
  induction gs generalizing db with
  | nil => rfl
  | cons g t ih =>
    simp only [List.foldl_cons]
    exact (ih (resolveOwnedGroup u now db g.id) (fun g' hg' => h g' (by simp [hg']))).trans
      (resolveOwnedGroup_groups_frame u now g.id gid db (h g (by simp)))

theorem isEmpty_false_of_mem {α : Type} {l : List α} {x : α} (h : x ∈ l) :
    l.isEmpty = false := by
  cases l with
  | nil => cases h
  | cons a t => rfl

/-! ## Claim theorems -/

/-- C3: `deleteUser` fails with `Unauthorized` when the acting id is not
an existing active admin; otherwise with `UserNotFound` when the target
does not exist; otherwise with `CannotDeleteAdmin` when the target's
role is admin.  Each failure returns an error and carries no state: the
operation aborts before touching storage. -/
theorem deleteUser_precondition_errors :
    (∀ (userId adminId now : Nat) (db : DB),
      (¬ ∃ x ∈ db.users, x.id = adminId ∧ x.role = Role.admin ∧ x.is_active = true) →
      deleteUser userId adminId now db = .error .Unauthorized)
    ∧ (∀ (userId adminId now : Nat) (db : DB),
      (∃ x ∈ db.users, x.id = adminId ∧ x.role = Role.admin ∧ x.is_active = true) →
      (¬ ∃ x ∈ db.users, x.id = userId) →
      deleteUser userId adminId now db = .error .UserNotFound)
    ∧ (∀ (userId adminId now : Nat) (db : DB) (t : User),
      (∃ x ∈ db.users, x.id = adminId ∧ x.role = Role.admin ∧ x.is_active = true) →
      (db.users.map (fun x => x.id)).Nodup →
      t ∈ db.users → t.id = userId → t.role = Role.admin →
      deleteUser userId adminId now db = .error .CannotDeleteAdmin) := by
  have hadmin : ∀ (adminId : Nat) (db : DB),
      (∃ x ∈ db.users, x.id = adminId ∧ x.role = Role.admin ∧ x.is_active = true) →
      (db.users.filter
        (fun x => x.id == adminId && (x.role == Role.admin && x.is_active))).isEmpty
        = false := by
    intro adminId db ⟨x, hx, hid, hrole, hact⟩
    have : x ∈ db.users.filter
        (fun x => x.id == adminId && (x.role == Role.admin && x.is_active)) :=
      List.mem_filter.mpr ⟨hx, by simp [hid, hrole, hact]⟩
    cases hflt : db.users.filter
        (fun x => x.id == adminId && (x.role == Role.admin && x.is_active)) with
    | nil => rw [hflt] at this; cases this
    | cons a tl => simp
  refine ⟨?_, ?_, ?_⟩
  · intro userId adminId now db hno
    have hempty : db.users.filter
        (fun x => x.id == adminId && (x.role == Role.admin && x.is_active)) = [] := by
      apply List.filter_eq_nil_iff.mpr
      intro x hx hc
      simp at hc
      exact hno ⟨x, hx, hc.1, hc.2.1, hc.2.2⟩
    simp [deleteUser, hempty]
  · intro userId adminId now db hadm hno
    have htgt : db.users.filter (fun x => x.id == userId) = [] := by
      apply List.filter_eq_nil_iff.mpr
      intro x hx hc
      exact hno ⟨x, hx, by simpa using hc⟩
    simp [deleteUser, hadmin adminId db hadm, htgt]
  · intro userId adminId now db t hadm hnd ht htid hrole
    have hsingle : db.users.filter (fun x => x.id == userId) = [t] := by
      have h0 := filter_eq_singleton_of_nodup db.users (fun x => x.id) t hnd ht
      simpa [htid] using h0
    simp [deleteUser, hadmin adminId db hadm, hsingle, hrole]

/-- C2: after a successful `deleteUser`, the target user row is still
present but deactivated, no membership row of the target remains in any
group, and no private message with the target as sender or recipient
remains. -/
theorem deleteUser_soft_delete_cascade (userId adminId now : Nat) (db db' : DB)
    (h : deleteUser userId adminId now db = .ok db') :
    (∃ x ∈ db'.users, x.id = userId ∧ x.is_active = false)
    ∧ (∀ x ∈ db'.users, x.id = userId → x.is_active = false)
    ∧ (∀ m ∈ db'.groupMemberships, m.user_id ≠ userId)
    ∧ (∀ p ∈ db'.privateMessages, p.sender_id ≠ userId ∧ p.recipient_id ≠ userId) := by
  obtain ⟨rfl, x, hx, hxid⟩ := deleteUser_ok_inv userId adminId now db _ h
  refine ⟨?_, ?_, ?_, ?_⟩
  · rw [deleteUserTx_users]
    refine ⟨(fun y =>
        if y.id == userId then { y with is_active := false, updated_at := now } else y) x,
      List.mem_map_of_mem _ hx, ?_⟩
    simp [hxid]
  · intro y hy hyid
    rw [deleteUserTx_users] at hy
    obtain ⟨z, hz, rfl⟩ := List.mem_map.mp hy
    by_cases hc : z.id = userId
    · simp [hc]
    · rw [if_neg (by simpa using hc)] at hyid ⊢
      exact absurd hyid hc
  · intro m hm
    rw [deleteUserTx_groupMemberships] at hm
    simpa using List.of_mem_filter hm
  · intro p hp
    rw [deleteUserTx_privateMessages] at hp
    refine ⟨by simpa using List.of_mem_filter (List.mem_of_mem_filter hp),
      by simpa using List.of_mem_filter hp⟩

/-- C8: `deleteUser` keeps every post and comment row; rows authored by
the target only get a refreshed `updated_at`, every other field (in
particular content and author) is unchanged, and rows by other authors
are untouched. -/
theorem deleteUser_preserves_posts_comments (userId adminId now : Nat) (db db' : DB)
    (h : deleteUser userId adminId now db = .ok db') :
    db'.posts = db.posts.map (fun p =>
      if p.author_id == userId then { p with updated_at := now } else p)
    ∧ db'.comments = db.comments.map (fun c =>
      if c.author_id == userId then { c with updated_at := now } else c) := by
  obtain ⟨rfl, -⟩ := deleteUser_ok_inv userId adminId now db _ h
  exact ⟨deleteUserTx_posts userId now db, deleteUserTx_comments userId now db⟩

/-- C10: the reconciliation `UPDATE groups ...` of `deleteUser` has no
WHERE clause, so every surviving group row, including rows of groups the
target neither owned nor belonged to, ends with `updated_at` equal to
the transaction time. -/
theorem deleteUser_touches_all_groups (userId adminId now : Nat) (db db' : DB)
    (h : deleteUser userId adminId now db = .ok db') :
    (∀ g ∈ db'.groups, g.updated_at = now)
    ∧ ((db.groups.map (fun x => x.id)).Nodup →
        ∀ g ∈ db.groups, g.owner_id ≠ userId →
          ∃ x ∈ db'.groups, x.id = g.id ∧ x.updated_at = now) := by
  obtain ⟨rfl, -⟩ := deleteUser_ok_inv userId adminId now db _ h
  constructor
  · intro g hg
    rw [deleteUserTx_groups] at hg
    obtain ⟨z, hz, rfl⟩ := List.mem_map.mp hg
    rfl
  · intro hnd g hg hnotown
    have hids : ∀ x ∈ (deactivateUser userId now db).groups.filter
        (fun y => y.owner_id == userId), x.id ≠ g.id := by
      intro x hx hc
      have hxg : x ∈ db.groups := List.mem_of_mem_filter hx
      have hxo : x.owner_id = userId := by simpa using List.of_mem_filter hx
      have hxeq : x = g := List.inj_on_of_nodup_map hnd hxg hg hc
      exact hnotown (hxeq ▸ hxo)
    have hfr := foldResolve_groups_frame userId now g.id
      ((deactivateUser userId now db).groups.filter (fun y => y.owner_id == userId))
      (deactivateUser userId now db) hids
    have hgmem : g ∈ (resolveOwnedGroups userId now (deactivateUser userId now db)).groups := by
      have hgf : g ∈ (resolveOwnedGroups userId now
          (deactivateUser userId now db)).groups.filter (fun x => x.id == g.id) := by
        rw [resolveOwnedGroups, hfr]
        exact List.mem_filter.mpr ⟨hg, by simp⟩
      exact List.mem_of_mem_filter hgf
    rw [deleteUserTx_groups]
    exact ⟨_, List.mem_map_of_mem _ hgmem, rfl, rfl⟩

/-- Witness for C3: concrete failing calls on the sample state. -/
theorem deleteUser_precondition_errors_witness :
    deleteUser 2 99 100 dbW = .error .Unauthorized
    ∧ deleteUser 99 1 100 dbW = .error .UserNotFound
    ∧ deleteUser 1 1 100 dbW = .error .CannotDeleteAdmin :=
  ⟨deleteUser_precondition_errors.1 2 99 100 dbW (by decide),
   deleteUser_precondition_errors.2.1 99 1 100 dbW (by decide) (by decide),
   deleteUser_precondition_errors.2.2 1 1 100 dbW
     { id := 1, email := "alice@school.test", password_hash := "h1",
       first_name := "Alice", last_name := "Adler", role := .admin }
     (by decide) (by decide) (by decide) (by decide) (by decide)⟩

/-- Witness for C2: deleting student 2 on the sample state. -/
theorem deleteUser_soft_delete_cascade_witness :
    (∃ x ∈ (deleteUserTx 2 100 dbW).users, x.id = 2 ∧ x.is_active = false)
    ∧ (∀ x ∈ (deleteUserTx 2 100 dbW).users, x.id = 2 → x.is_active = false)
    ∧ (∀ m ∈ (deleteUserTx 2 100 dbW).groupMemberships, m.user_id ≠ 2)
    ∧ (∀ p ∈ (deleteUserTx 2 100 dbW).privateMessages,
        p.sender_id ≠ 2 ∧ p.recipient_id ≠ 2) :=
  deleteUser_soft_delete_cascade 2 1 100 dbW (deleteUserTx 2 100 dbW) rfl

/-- Witness for C8: deleting student 2 on the sample state. -/
theorem deleteUser_preserves_posts_comments_witness :
    (deleteUserTx 2 100 dbW).posts = dbW.posts.map (fun p =>
      if p.author_id == 2 then { p with updated_at := 100 } else p)
    ∧ (deleteUserTx 2 100 dbW).comments = dbW.comments.map (fun c =>
      if c.author_id == 2 then { c with updated_at := 100 } else c) :=
  deleteUser_preserves_posts_comments 2 1 100 dbW (deleteUserTx 2 100 dbW) rfl

/-- Witness for C10: deleting student 2 on the sample state. -/
theorem deleteUser_touches_all_groups_witness :
    (∀ g ∈ (deleteUserTx 2 100 dbW).groups, g.updated_at = 100)
    ∧ ((dbW.groups.map (fun x => x.id)).Nodup →
        ∀ g ∈ dbW.groups, g.owner_id ≠ 2 →
          ∃ x ∈ (deleteUserTx 2 100 dbW).groups, x.id = g.id ∧ x.updated_at = 100) :=
  deleteUser_touches_all_groups 2 1 100 dbW (deleteUserTx 2 100 dbW) rfl

/-- C6: `leaveGroup` checks its preconditions in order, failing fast
with `UserNotFound`, then `GroupNotFound`, then `NotAMember`; an error
result carries no state, so a failed call leaves the store untouched. -/
theorem leaveGroup_precondition_errors :
    (∀ (groupId userId now : Nat) (db : DB),
      (¬ ∃ x ∈ db.users, x.id = userId) →
      leaveGroup groupId userId now db = .error .UserNotFound)
    ∧ (∀ (groupId userId now : Nat) (db : DB),
      (∃ x ∈ db.users, x.id = userId) →
      (¬ ∃ g ∈ db.groups, g.id = groupId) →
      leaveGroup groupId userId now db = .error .GroupNotFound)
    ∧ (∀ (groupId userId now : Nat) (db : DB),
      (∃ x ∈ db.users, x.id = userId) →
      (∃ g ∈ db.groups, g.id = groupId) →
      (¬ ∃ m ∈ db.groupMemberships, m.group_id = groupId ∧ m.user_id = userId) →
      leaveGroup groupId userId now db = .error .NotAMember) := by
  have husers : ∀ (userId : Nat) (db : DB), (∃ x ∈ db.users, x.id = userId) →
      (db.users.filter (fun x => x.id == userId)).isEmpty = false := by
    intro userId db ⟨x, hx, hid⟩
    exact isEmpty_false_of_mem (List.mem_filter.mpr ⟨hx, by simp [hid]⟩)
  refine ⟨?_, ?_, ?_⟩
  · intro groupId userId now db hno
    have hempty : db.users.filter (fun x => x.id == userId) = [] := by
      apply List.filter_eq_nil_iff.mpr
      intro x hx hc
      exact hno ⟨x, hx, by simpa using hc⟩
    simp [leaveGroup, hempty]
  · intro groupId userId now db hu hng
    have hgrp : db.groups.filter (fun g => g.id == groupId) = [] := by
      apply List.filter_eq_nil_iff.mpr
      intro g hg hc
      exact hng ⟨g, hg, by simpa using hc⟩
    simp [leaveGroup, husers userId db hu, hgrp]
  · intro groupId userId now db hu hg hnm
    obtain ⟨g, hgm, hgid⟩ := hg
    have hmem : db.groupMemberships.filter
        (fun m => m.group_id == groupId && m.user_id == userId) = [] := by
      apply List.filter_eq_nil_iff.mpr
      intro m hm hc
      simp at hc
      exact hnm ⟨m, hm, hc.1, hc.2⟩
    cases hflt : db.groups.filter (fun x => x.id == groupId) with
    | nil =>
      have : g ∈ db.groups.filter (fun x => x.id == groupId) :=
        List.mem_filter.mpr ⟨hgm, by simp [hgid]⟩
      rw [hflt] at this
      cases this
    | cons g0 tl =>
      simp [leaveGroup, husers userId db hu, hflt, hmem]

/-- Witness for C6: concrete failing calls on the sample state. -/
theorem leaveGroup_precondition_errors_witness :
    leaveGroup 1 99 100 dbW = .error .UserNotFound
    ∧ leaveGroup 99 2 100 dbW = .error .GroupNotFound
    ∧ leaveGroup 1 4 100 dbW = .error .NotAMember :=
  ⟨leaveGroup_precondition_errors.1 1 99 100 dbW (by decide),
   leaveGroup_precondition_errors.2.1 99 2 100 dbW (by decide) (by decide),
   leaveGroup_precondition_errors.2.2 1 4 100 dbW (by decide) (by decide) (by decide)⟩

/-- C7: a second `joinGroup` for the same (group, user) pair after a
successful one fails with `AlreadyMember`, and exactly one membership
row for the pair exists after the first call. -/
theorem joinGroup_duplicate_rejected
    (groupId userId now newId now2 newId2 : Nat) (db : DB) (m : Membership) (db1 : DB)
    (h : joinGroup groupId userId now newId db = .ok (m, db1)) :
    joinGroup groupId userId now2 newId2 db1 = .error .AlreadyMember
    ∧ (db1.groupMemberships.filter
        (fun x => x.group_id == groupId && x.user_id == userId)).length = 1 := by
  simp only [joinGroup] at h
  split at h
  · simp at h
  · split at h
    · simp at h
    · split at h
      · simp at h
      · rename_i hu hg hm
        rw [Except.ok.injEq, Prod.mk.injEq] at h
        obtain ⟨hm', hdb'⟩ := h
        subst hdb'
        have hmgrp : m.group_id = groupId := by rw [← hm']
        have hmusr : m.user_id = userId := by rw [← hm']
        have hpair : db.groupMemberships.filter
            (fun x => x.group_id == groupId && x.user_id == userId) = [] := by
          have h0 := hm
          simp only [Bool.not_eq_true, Bool.not_eq_false] at h0
          simpa [List.isEmpty_iff] using h0
        rw [hm']
        have c1 : (db.users.filter (fun x => x.id == userId)).isEmpty = false := by
          simpa using hu
        obtain ⟨g0, hg0⟩ : ∃ g0, g0 ∈ db.groups.filter (fun g => g.id == groupId) := by
          cases hflt : db.groups.filter (fun g => g.id == groupId) with
          | nil => rw [hflt] at hg; simp at hg
          | cons a tl => exact ⟨a, List.mem_cons_self a tl⟩
        have hg0m : g0 ∈ db.groups := List.mem_of_mem_filter hg0
        have hg0id : g0.id = groupId := by simpa using List.of_mem_filter hg0
        have himg : (fun g => if g.id == groupId then
              { g with member_count := g.member_count + 1, updated_at := now } else g) g0
            ∈ db.groups.map (fun g => if g.id == groupId then
              { g with member_count := g.member_count + 1, updated_at := now } else g) :=
          List.mem_map_of_mem _ hg0m
        have c2 : ((db.groups.map (fun g =>
            if g.id == groupId then
              { g with member_count := g.member_count + 1, updated_at := now }
            else g)).filter (fun g => g.id == groupId)).isEmpty = false :=
          isEmpty_false_of_mem (List.mem_filter.mpr ⟨himg, by simp [hg0id]⟩)
        have hmm : m ∈ db.groupMemberships ++ [m] := by simp
        have c3 : ((db.groupMemberships ++ [m]).filter
            (fun x => x.group_id == groupId && x.user_id == userId)).isEmpty = false :=
          isEmpty_false_of_mem (List.mem_filter.mpr ⟨hmm, by simp [hmgrp, hmusr]⟩)
        constructor
        · simp only [joinGroup]
          rw [c1, c2, c3]
          simp
        · rw [List.filter_append, hpair]
          simp [hmgrp, hmusr]

/-- Witness for C7: user 4 joins group 1 on the sample state, then
tries again. -/
theorem joinGroup_duplicate_rejected_witness :
    joinGroup 1 4 101 51 dbW2 = .error .AlreadyMember
    ∧ (dbW2.groupMemberships.filter
        (fun x => x.group_id == 1 && x.user_id == 4)).length = 1 :=
  joinGroup_duplicate_rejected 1 4 100 50 101 51 dbW mW dbW2 rfl

/-- C9: if a like row for the pair already exists, `likePost` returns
that row and writes nothing, so a second call right after a successful
one returns the same row and the same state. -/
theorem likePost_idempotent (postId userId now newId now2 newId2 : Nat)
    (db db1 : DB) (r : PostLike)
    (h : likePost postId userId now newId db = .ok (r, db1)) :
    likePost postId userId now2 newId2 db1 = .ok (r, db1) := by
  simp only [likePost] at h
  cases hL : db.postLikes.filter (fun l => l.post_id == postId && l.user_id == userId) with
  | cons l tl =>
    rw [hL] at h
    rw [Except.ok.injEq, Prod.mk.injEq] at h
    obtain ⟨hr, hdb⟩ := h
    subst hr
    subst hdb
    simp only [likePost]
    rw [hL]
  | nil =>
    rw [hL] at h
    cases hP : db.posts.filter (fun p => p.id == postId) with
    | nil => rw [hP] at h; simp at h
    | cons p tl2 =>
      rw [hP] at h
      rw [Except.ok.injEq, Prod.mk.injEq] at h
      obtain ⟨hr, hdb⟩ := h
      subst hr
      subst hdb
      have hflt2 : (db.postLikes ++
          [({ id := newId, post_id := postId, user_id := userId,
              created_at := now } : PostLike)]).filter
            (fun l => l.post_id == postId && l.user_id == userId)
          = [{ id := newId, post_id := postId, user_id := userId, created_at := now }] := by
        rw [List.filter_append, hL]
        simp
      simp only [likePost]
      rw [hflt2]

/-- Witness for C9: user 3 likes post 1 on the sample state, then likes
it again. -/
theorem likePost_idempotent_witness :
    likePost 1 3 101 61 dbW3 = .ok (lW, dbW3) :=
  likePost_idempotent 1 3 100 60 101 61 dbW dbW3 lW rfl

set_option maxHeartbeats 2000000 in
/-- C1: for every group owned by the target of a successful
`deleteUser`, the succession policy is applied, first match wins: an
admin co-member (the first returned by storage) becomes owner with
`is_admin` left true; otherwise the first other member becomes owner and
is promoted; otherwise the group row is deleted and its membership rows
are gone. -/
theorem deleteUser_ownership_succession (userId adminId now : Nat) (db db' : DB) (g : Group)
    (hgids : (db.groups.map (fun x => x.id)).Nodup)
    (hmids : (db.groupMemberships.map (fun m => m.id)).Nodup)
    (hg : g ∈ db.groups) (hown : g.owner_id = userId)
    (h : deleteUser userId adminId now db = .ok db') :
    match db.groupMemberships.filter
        (fun m => m.group_id == g.id && (m.is_admin && m.user_id != userId)),
      db.groupMemberships.filter
        (fun m => m.group_id == g.id && m.user_id != userId) with
    | a :: _, _ =>
      (∃ x ∈ db'.groups, x.id = g.id ∧ x.owner_id = a.user_id)
      ∧ (∀ x ∈ db'.groups, x.id = g.id → x.owner_id = a.user_id)
      ∧ a ∈ db'.groupMemberships ∧ a.is_admin = true
    | [], m :: _ =>
      (∃ x ∈ db'.groups, x.id = g.id ∧ x.owner_id = m.user_id)
      ∧ (∀ x ∈ db'.groups, x.id = g.id → x.owner_id = m.user_id)
      ∧ { m with is_admin := true } ∈ db'.groupMemberships
    | [], [] =>
      (∀ x ∈ db'.groups, x.id ≠ g.id)
      ∧ (∀ x ∈ db'.groupMemberships, x.group_id ≠ g.id) := by
  obtain ⟨rfl, -⟩ := deleteUser_ok_inv userId adminId now db _ h
  have hspec := resolveOwnedGroups_spec userId now (deactivateUser userId now db) g
    hgids hmids hg hown
  have e2 : (deactivateUser userId now db).groupMemberships = db.groupMemberships := rfl
  rw [e2] at hspec
  cases hA : db.groupMemberships.filter
      (fun m => m.group_id == g.id && (m.is_admin && m.user_id != userId)) with
  | cons a tl =>
    rw [hA] at hspec
    have hspec2 : (resolveOwnedGroups userId now (deactivateUser userId now db)).groups.filter
          (fun x => x.id == g.id)
        = [{ g with owner_id := a.user_id, updated_at := now }]
        ∧ a ∈ (resolveOwnedGroups userId now (deactivateUser userId now db)).groupMemberships :=
      hspec
    have haf : a ∈ db.groupMemberships.filter
        (fun m => m.group_id == g.id && (m.is_admin && m.user_id != userId)) := by
      rw [hA]; exact List.mem_cons_self a tl
    have haprops := List.of_mem_filter haf
    simp only [Bool.and_eq_true, beq_iff_eq, bne_iff_ne] at haprops
    obtain ⟨hagrp, haadm, hausr⟩ := haprops
    refine ⟨?_, ?_, ?_, haadm⟩
    · rw [deleteUserTx_groups]
      have hsf : ({ g with owner_id := a.user_id, updated_at := now } : Group)
          ∈ (resolveOwnedGroups userId now
            (deactivateUser userId now db)).groups.filter (fun x => x.id == g.id) := by
        rw [hspec2.1]; exact List.mem_cons_self _ _
      have hs := List.mem_of_mem_filter hsf
      exact ⟨_, List.mem_map_of_mem _ hs, rfl, rfl⟩
    · intro x hx hxid
      rw [deleteUserTx_groups] at hx
      obtain ⟨y, hy, rfl⟩ := List.mem_map.mp hx
      have hyf : y ∈ (resolveOwnedGroups userId now
          (deactivateUser userId now db)).groups.filter (fun x => x.id == g.id) :=
        List.mem_filter.mpr ⟨hy, by simpa using hxid⟩
      rw [hspec2.1] at hyf
      have : y = { g with owner_id := a.user_id, updated_at := now } := by simpa using hyf
      rw [this]
    · rw [deleteUserTx_groupMemberships]
      exact List.mem_filter.mpr ⟨hspec2.2, by simpa using hausr⟩
  | nil =>
    rw [hA] at hspec
    cases hB : db.groupMemberships.filter
        (fun m => m.group_id == g.id && m.user_id != userId) with
    | cons m tl =>
      rw [hB] at hspec
      have hspec2 : (resolveOwnedGroups userId now
            (deactivateUser userId now db)).groups.filter (fun x => x.id == g.id)
          = [{ g with owner_id := m.user_id, updated_at := now }]
          ∧ { m with is_admin := true }
            ∈ (resolveOwnedGroups userId now (deactivateUser userId now db)).groupMemberships :=
        hspec
      have hmf : m ∈ db.groupMemberships.filter
          (fun x => x.group_id == g.id && x.user_id != userId) := by
        rw [hB]; exact List.mem_cons_self m tl
      have hmprops := List.of_mem_filter hmf
      simp only [Bool.and_eq_true, beq_iff_eq, bne_iff_ne] at hmprops
      obtain ⟨hmgrp, hmusr⟩ := hmprops
      refine ⟨?_, ?_, ?_⟩
      · rw [deleteUserTx_groups]
        have hsf : ({ g with owner_id := m.user_id, updated_at := now } : Group)
            ∈ (resolveOwnedGroups userId now
              (deactivateUser userId now db)).groups.filter (fun x => x.id == g.id) := by
          rw [hspec2.1]; exact List.mem_cons_self _ _
        have hs := List.mem_of_mem_filter hsf
        exact ⟨_, List.mem_map_of_mem _ hs, rfl, rfl⟩
      · intro x hx hxid
        rw [deleteUserTx_groups] at hx
        obtain ⟨y, hy, rfl⟩ := List.mem_map.mp hx
        have hyf : y ∈ (resolveOwnedGroups userId now
            (deactivateUser userId now db)).groups.filter (fun x => x.id == g.id) :=
          List.mem_filter.mpr ⟨hy, by simpa using hxid⟩
        rw [hspec2.1] at hyf
        have : y = { g with owner_id := m.user_id, updated_at := now } := by simpa using hyf
        rw [this]
      · rw [deleteUserTx_groupMemberships]
        exact List.mem_filter.mpr ⟨hspec2.2, by simpa using hmusr⟩
    | nil =>
      rw [hB] at hspec
      have hspec2 : (resolveOwnedGroups userId now
            (deactivateUser userId now db)).groups.filter (fun x => x.id == g.id) = []
          ∧ (resolveOwnedGroups userId now
              (deactivateUser userId now db)).groupMemberships.filter
            (fun m => m.group_id == g.id) = [] :=
        hspec
      refine ⟨?_, ?_⟩
      · intro x hx hxid
        rw [deleteUserTx_groups] at hx
        obtain ⟨y, hy, rfl⟩ := List.mem_map.mp hx
        have hyf : y ∈ (resolveOwnedGroups userId now
            (deactivateUser userId now db)).groups.filter (fun x => x.id == g.id) :=
          List.mem_filter.mpr ⟨hy, by simpa using hxid⟩
        rw [hspec2.1] at hyf
        cases hyf
      · intro x hx hxid
        rw [deleteUserTx_groupMemberships] at hx
        have hxR := List.mem_of_mem_filter hx
        have hxf : x ∈ (resolveOwnedGroups userId now
            (deactivateUser userId now db)).groupMemberships.filter
              (fun m => m.group_id == g.id) :=
          List.mem_filter.mpr ⟨hxR, by simpa using hxid⟩
        rw [hspec2.2] at hxf
        cases hxf

/-- Witness for C1: deleting student 2 on the sample state; group 1 has
admin co-member 3, who becomes the owner with `is_admin` still true. -/
theorem deleteUser_ownership_succession_witness :
    (∃ x ∈ (deleteUserTx 2 100 dbW).groups, x.id = 1 ∧ x.owner_id = 3)
    ∧ (∀ x ∈ (deleteUserTx 2 100 dbW).groups, x.id = 1 → x.owner_id = 3)
    ∧ ({ id := 2, group_id := 1, user_id := 3, is_admin := true, joined_at := 0 } : Membership)
        ∈ (deleteUserTx 2 100 dbW).groupMemberships
    ∧ ({ id := 2, group_id := 1, user_id := 3, is_admin := true,
         joined_at := 0 } : Membership).is_admin = true :=
  deleteUser_ownership_succession 2 1 100 dbW (deleteUserTx 2 100 dbW)
    { id := 1, name := "Chess", owner_id := 2, member_count := 2 }
    (by decide) (by decide) (by decide) rfl rfl

/-- C4 (counterexample to the claim as stated): on the sample state the
owner of group 4 — its only member — leaves via `leaveGroup`; the call
succeeds, yet the group row still exists afterwards (ownerless, with
`member_count` zero), where the claim requires it to be gone. -/
theorem owner_leave_empty_group_survives :
    (dbW.groupMemberships.filter
      (fun m => m.group_id == 4 && m.user_id != 2)).isEmpty = true
    ∧ leaveGroup 4 2 100 dbW = .ok dbW4
    ∧ ∃ x ∈ dbW4.groups, x.id = 4 ∧ x.member_count = 0 :=
  ⟨by decide, rfl, by decide⟩

set_option maxHeartbeats 2000000 in
/-- C4 (amended): an owner removal that leaves zero remaining members
deletes the group row and all its membership rows when performed by
`deleteUser`; when the owner instead leaves via `leaveGroup`, the
group's membership rows are removed but the group row itself survives
(the source deliberately keeps it: "we'll leave it for now"). -/
theorem owner_removal_empty_group_deleted
    (db : DB) (g : Group) (userId adminId now : Nat) (db' db2 : DB)
    (hgids : (db.groups.map (fun x => x.id)).Nodup)
    (hmids : (db.groupMemberships.map (fun m => m.id)).Nodup)
    (hg : g ∈ db.groups) (hown : g.owner_id = userId)
    (hempty : db.groupMemberships.filter
      (fun m => m.group_id == g.id && m.user_id != userId) = []) :
    (deleteUser userId adminId now db = .ok db' →
      (∀ x ∈ db'.groups, x.id ≠ g.id)
      ∧ (∀ x ∈ db'.groupMemberships, x.group_id ≠ g.id))
    ∧ (leaveGroup g.id userId now db = .ok db2 →
      (∀ x ∈ db2.groupMemberships, x.group_id ≠ g.id)
      ∧ ∃ x ∈ db2.groups, x.id = g.id) := by
  have hadm : db.groupMemberships.filter
      (fun m => m.group_id == g.id && (m.is_admin && m.user_id != userId)) = [] := by
    apply List.filter_eq_nil_iff.mpr
    intro x hx hc
    simp only [Bool.and_eq_true, beq_iff_eq, bne_iff_ne] at hc
    exact (List.filter_eq_nil_iff.mp hempty x hx) (by simp [hc.1, hc.2.2])
  constructor
  · -- the owner's account is deleted: the group row is gone
    intro h
    obtain ⟨rfl, -⟩ := deleteUser_ok_inv userId adminId now db _ h
    have hspec := resolveOwnedGroups_spec userId now (deactivateUser userId now db) g
      hgids hmids hg hown
    have e2 : (deactivateUser userId now db).groupMemberships = db.groupMemberships := rfl
    rw [e2] at hspec
    rw [hadm, hempty] at hspec
    have hspec2 : (resolveOwnedGroups userId now
          (deactivateUser userId now db)).groups.filter (fun x => x.id == g.id) = []
        ∧ (resolveOwnedGroups userId now
            (deactivateUser userId now db)).groupMemberships.filter
          (fun m => m.group_id == g.id) = [] :=
      hspec
    constructor
    · intro x hx hxid
      rw [deleteUserTx_groups] at hx
      obtain ⟨y, hy, rfl⟩ := List.mem_map.mp hx
      have hyf : y ∈ (resolveOwnedGroups userId now
          (deactivateUser userId now db)).groups.filter (fun x => x.id == g.id) :=
        List.mem_filter.mpr ⟨hy, by simpa using hxid⟩
      rw [hspec2.1] at hyf
      cases hyf
    · intro x hx hxid
      rw [deleteUserTx_groupMemberships] at hx
      have hxR := List.mem_of_mem_filter hx
      have hxf : x ∈ (resolveOwnedGroups userId now
          (deactivateUser userId now db)).groupMemberships.filter
            (fun m => m.group_id == g.id) :=
        List.mem_filter.mpr ⟨hxR, by simpa using hxid⟩
      rw [hspec2.2] at hxf
      cases hxf
  · -- the owner leaves: memberships are gone but the group row survives
    intro h
    have hsing : db.groups.filter (fun x => x.id == g.id) = [g] :=
      filter_eq_singleton_of_nodup db.groups (fun x => x.id) g hgids hg
    simp only [leaveGroup] at h
    split at h
    · simp at h
    · rw [hsing] at h
      simp only [hown, beq_self_eq_true, if_true, hadm, hempty] at h
      split at h
      · simp at h
      · rw [Except.ok.injEq] at h
        constructor
        · intro x hx
          rw [← h] at hx
          have hxm := List.mem_of_mem_filter hx
          have hxp := List.of_mem_filter hx
          intro hxg
          have huser : x.user_id = userId := by
            by_contra hneu
            exact (List.filter_eq_nil_iff.mp hempty x hxm) (by simp [hxg, hneu])
          simp [hxg, huser] at hxp
        · rw [← h]
          exact ⟨_, List.mem_map_of_mem _ hg, by simp⟩

/-- Witness for C4 (amended): deleting user 2 removes their sole-member
group 4 entirely, while user 2 leaving group 4 keeps the group row. -/
theorem owner_removal_empty_group_deleted_witness :
    ((∀ x ∈ (deleteUserTx 2 100 dbW).groups, x.id ≠ 4)
      ∧ (∀ x ∈ (deleteUserTx 2 100 dbW).groupMemberships, x.group_id ≠ 4))
    ∧ ((∀ x ∈ dbW4.groupMemberships, x.group_id ≠ 4) ∧ ∃ x ∈ dbW4.groups, x.id = 4) :=
  ⟨(owner_removal_empty_group_deleted dbW
      { id := 4, name := "Solo", owner_id := 2, member_count := 1 }
      2 1 100 (deleteUserTx 2 100 dbW) dbW4
      (by decide) (by decide) (by decide) rfl (by decide)).1 rfl,
   (owner_removal_empty_group_deleted dbW
      { id := 4, name := "Solo", owner_id := 2, member_count := 1 }
      2 1 100 (deleteUserTx 2 100 dbW) dbW4
      (by decide) (by decide) (by decide) rfl (by decide)).2 rfl⟩

/-! ## Preservation of the member-count and pair-uniqueness invariants -/

/-- Under pair uniqueness, a nonempty (group, user) filter holds exactly
one row. -/
theorem pair_filter_length_one (groupId userId : Nat) (gm : List Membership)
    (hpu : gm.Pairwise
      (fun m1 m2 => ¬(m1.group_id = m2.group_id ∧ m1.user_id = m2.user_id)))
    (hne : (gm.filter
      (fun m => m.group_id == groupId && m.user_id == userId)).isEmpty = false) :
    (gm.filter (fun m => m.group_id == groupId && m.user_id == userId)).length = 1 := by
  have hsub : List.Sublist
      (gm.filter (fun m => m.group_id == groupId && m.user_id == userId)) gm :=
    List.filter_sublist _
  have hpw := hpu.sublist hsub
  have hall : ∀ a ∈ gm.filter (fun m => m.group_id == groupId && m.user_id == userId),
      ∀ b ∈ gm.filter (fun m => m.group_id == groupId && m.user_id == userId),
      a.group_id = b.group_id ∧ a.user_id = b.user_id := by
    intro a ha b hb
    have ha2 := List.of_mem_filter ha
    have hb2 := List.of_mem_filter hb
    simp only [Bool.and_eq_true, beq_iff_eq] at ha2 hb2
    exact ⟨ha2.1.trans hb2.1.symm, ha2.2.trans hb2.2.symm⟩
  have hle := length_le_one_of_pairwise_not hpw hall
  have hpos : 0 < (gm.filter
      (fun m => m.group_id == groupId && m.user_id == userId)).length := by
    cases hc : gm.filter (fun m => m.group_id == groupId && m.user_id == userId) with
    | nil => rw [hc] at hne; simp at hne
    | cons a tl => simp [hc]
  omega

/-- The resolver preserves the member-count invariant: it never changes
`member_count`, row ids, or the multiset of memberships per group,
except when it deletes a group together with its membership rows. -/
theorem resolveOwnedGroup_mcinv (u now gid : Nat) (db : DB) (hmc : MCInv db) :
    MCInv (resolveOwnedGroup u now db gid) := by
  cases hA : db.groupMemberships.filter
      (fun m => m.group_id == gid && (m.is_admin && m.user_id != u)) with
  | cons a tl =>
    simp only [resolveOwnedGroup, hA]
    intro x hx
    obtain ⟨y, hy, rfl⟩ := List.mem_map.mp hx
    by_cases hc : (y.id == gid) = true
    · rw [if_pos hc]
      exact hmc y hy
    · rw [if_neg hc]
      exact hmc y hy
  | nil =>
    cases hB : db.groupMemberships.filter
        (fun m => m.group_id == gid && m.user_id != u) with
    | cons m tl =>
      simp only [resolveOwnedGroup, hA, hB]
      intro x hx
      obtain ⟨y, hy, rfl⟩ := List.mem_map.mp hx
      have hpres : ∀ z : Membership,
          ((fun z => if z.id == m.id then { z with is_admin := true } else z) z).group_id
            = z.group_id := by
        intro z
        by_cases hc : z.id = m.id <;> simp [hc]
      have hflt : ∀ (w : Nat), (db.groupMemberships.map
            (fun z => if z.id == m.id then { z with is_admin := true } else z)).filter
              (fun mm => mm.group_id == w)
          = (db.groupMemberships.filter (fun mm => mm.group_id == w)).map
              (fun z => if z.id == m.id then { z with is_admin := true } else z) := by
        intro w
        apply filter_map_comm
        intro z _
        rw [hpres z]
      by_cases hc : (y.id == gid) = true
      · rw [if_pos hc]
        show y.member_count = _
        rw [hflt, List.length_map]
        exact hmc y hy
      · rw [if_neg hc]
        show y.member_count = _
        rw [hflt, List.length_map]
        exact hmc y hy
    | nil =>
      simp only [resolveOwnedGroup, hA, hB]
      intro x hx
      have hxmem : x ∈ db.groups := List.mem_of_mem_filter hx
      have hxid : x.id ≠ gid := by simpa using List.of_mem_filter hx
      show x.member_count = _
      rw [filter_filter_of_imp]
      · exact hmc x hxmem
      · intro z _ hz
        have : z.group_id = x.id := by simpa using hz
        simp [this, hxid]

/-- The resolver preserves pair uniqueness of the membership rows. -/
theorem resolveOwnedGroup_pairUnique (u now gid : Nat) (db : DB) (hpu : PairUnique db) :
    PairUnique (resolveOwnedGroup u now db gid) := by
  cases hA : db.groupMemberships.filter
      (fun m => m.group_id == gid && (m.is_admin && m.user_id != u)) with
  | cons a tl =>
    simp only [resolveOwnedGroup, hA]
    exact hpu
  | nil =>
    cases hB : db.groupMemberships.filter
        (fun m => m.group_id == gid && m.user_id != u) with
    | cons m tl =>
      simp only [resolveOwnedGroup, hA, hB]
      show (db.groupMemberships.map
          (fun z => if z.id == m.id then { z with is_admin := true } else z)).Pairwise _
      have hpres : ∀ z : Membership,
          ((fun z => if z.id == m.id then { z with is_admin := true } else z) z).group_id
              = z.group_id
          ∧ ((fun z => if z.id == m.id then { z with is_admin := true } else z) z).user_id
              = z.user_id := by
        intro z
        by_cases hc : z.id = m.id <;> simp [hc]
      apply List.Pairwise.map _ _ hpu
      intro x y hxy hcon
      exact hxy ⟨((hpres x).1.symm.trans hcon.1).trans (hpres y).1,
        ((hpres x).2.symm.trans hcon.2).trans (hpres y).2⟩
    | nil =>
      simp only [resolveOwnedGroup, hA, hB]
      show (db.groupMemberships.filter (fun m => m.group_id != gid)).Pairwise _
      exact hpu.sublist (List.filter_sublist _)

/-- The succession fold preserves pair uniqueness. -/
theorem foldResolve_pairUnique (u now : Nat) (gs : List Group) (db : DB)
    (hpu : PairUnique db) :
    PairUnique (gs.foldl (fun d g => resolveOwnedGroup u now d g.id) db) := by
  induction gs generalizing db with
  | nil => exact hpu
  | cons g t ih =>
    simp only [List.foldl_cons]
    exact ih (resolveOwnedGroup u now db g.id) (resolveOwnedGroup_pairUnique u now g.id db hpu)

/-- Removing the unique membership row of (groupId, userId) and
decrementing that group's cached count preserves both invariants. -/
theorem removeMember_inv (groupId userId now : Nat) (dbr db1 : DB)
    (hmc : MCInv dbr) (hpu : PairUnique dbr)
    (hone : (dbr.groupMemberships.filter
      (fun m => m.group_id == groupId && m.user_id == userId)).length = 1)
    (hgm : db1.groupMemberships = dbr.groupMemberships.filter
      (fun m => !(m.group_id == groupId && m.user_id == userId)))
    (hgs : db1.groups = dbr.groups.map (fun x =>
      if x.id == groupId then
        { x with member_count := x.member_count - 1, updated_at := now } else x)) :
    MCInv db1 ∧ PairUnique db1 := by
  constructor
  · intro x hx
    rw [hgs] at hx
    obtain ⟨y, hy, rfl⟩ := List.mem_map.mp hx
    rw [hgm]
    have hmcy := hmc y hy
    by_cases hc : (y.id == groupId) = true
    · have hyid : y.id = groupId := by simpa using hc
      rw [if_pos hc]
      show y.member_count - 1 = _
      have hswap : (dbr.groupMemberships.filter
            (fun m => !(m.group_id == groupId && m.user_id == userId))).filter
              (fun m => m.group_id == y.id)
          = (dbr.groupMemberships.filter (fun m => m.group_id == groupId)).filter
              (fun m => !(m.user_id == userId)) := by
        rw [← filter_and_eq, ← filter_and_eq]
        apply List.filter_congr
        intro z _
        by_cases h1 : (z.group_id == groupId) = true
        · by_cases h2 : (z.user_id == userId) = true
          · simp [h1, h2, hyid]
          · simp [h1, h2, hyid]
        · simp [h1, hyid]
      rw [hswap]
      have hsplit := length_filter_split
        (dbr.groupMemberships.filter (fun m => m.group_id == groupId))
        (fun m => m.user_id == userId)
      have hone2 : ((dbr.groupMemberships.filter
          (fun m => m.group_id == groupId)).filter
            (fun m => m.user_id == userId)).length = 1 := by
        rw [← filter_and_eq]
        exact hone
      rw [hyid] at hmcy
      omega
    · rw [if_neg hc]
      show y.member_count = _
      rw [filter_filter_of_imp]
      · exact hmcy
      · intro z _ hz
        have hz2 : z.group_id = y.id := by simpa using hz
        have : ¬ y.id = groupId := by simpa using hc
        simp [hz2, this]
  · show db1.groupMemberships.Pairwise _
    rw [hgm]
    exact hpu.sublist (List.filter_sublist _)

/-- A successful join preserves both invariants: the inserted row is
counted by the incremented cache, and the `AlreadyMember` check keeps
the pair unique. -/
theorem joinGroup_inv (groupId userId now newId : Nat) (db : DB) (m : Membership) (db1 : DB)
    (hmc : MCInv db) (hpu : PairUnique db)
    (h : joinGroup groupId userId now newId db = .ok (m, db1)) :
    MCInv db1 ∧ PairUnique db1 := by
  simp only [joinGroup] at h
  split at h
  · simp at h
  · split at h
    · simp at h
    · split at h
      · simp at h
      · rename_i hu hg hm2
        rw [Except.ok.injEq, Prod.mk.injEq] at h
        obtain ⟨hm', hdb'⟩ := h
        subst hdb'
        have hpair : db.groupMemberships.filter
            (fun x => x.group_id == groupId && x.user_id == userId) = [] := by
          have h0 := hm2
          simp only [Bool.not_eq_true, Bool.not_eq_false] at h0
          simpa [List.isEmpty_iff] using h0
        constructor
        · intro x hx
          obtain ⟨y, hy, rfl⟩ := List.mem_map.mp hx
          have hmcy := hmc y hy
          by_cases hyid : y.id = groupId
          · rw [hyid] at hmcy
            simp [hyid, List.filter_append, hmcy]
          · simp [hyid, List.filter_append, hmcy, Ne.symm hyid]
        · refine List.pairwise_append.mpr ⟨hpu, by simp, ?_⟩
          intro a ha b hb
          simp only [List.mem_singleton] at hb
          subst hb
          intro hcon
          have haf : a ∈ db.groupMemberships.filter
              (fun x => x.group_id == groupId && x.user_id == userId) :=
            List.mem_filter.mpr ⟨ha, by simp [hcon.1, hcon.2]⟩
          rw [hpair] at haf
          cases haf

/-- Transferring a group's ownership (no membership change) preserves
both invariants. -/
theorem transferOwner_inv (w now gid : Nat) (db db1 : DB)
    (hmc : MCInv db) (hpu : PairUnique db)
    (hgm : db1.groupMemberships = db.groupMemberships)
    (hgs : db1.groups = db.groups.map (fun x =>
      if x.id == gid then { x with owner_id := w, updated_at := now } else x)) :
    MCInv db1 ∧ PairUnique db1 := by
  constructor
  · intro x hx
    rw [hgs] at hx
    obtain ⟨y, hy, rfl⟩ := List.mem_map.mp hx
    rw [hgm]
    by_cases hc : (y.id == gid) = true
    · rw [if_pos hc]
      exact hmc y hy
    · rw [if_neg hc]
      exact hmc y hy
  · show db1.groupMemberships.Pairwise _
    rw [hgm]
    exact hpu

/-- Promoting one membership row to admin (group and user references
unchanged) while transferring ownership preserves both invariants and
every (group, user) filter count. -/
theorem promote_inv (w now gid mid : Nat) (db db1 : DB)
    (hmc : MCInv db) (hpu : PairUnique db)
    (hgm : db1.groupMemberships = db.groupMemberships.map (fun x =>
      if x.id == mid then { x with is_admin := true } else x))
    (hgs : db1.groups = db.groups.map (fun x =>
      if x.id == gid then { x with owner_id := w, updated_at := now } else x)) :
    MCInv db1 ∧ PairUnique db1
    ∧ ∀ p q : Nat,
      (db1.groupMemberships.filter
        (fun m => m.group_id == p && m.user_id == q)).length
      = (db.groupMemberships.filter
        (fun m => m.group_id == p && m.user_id == q)).length := by
  have hpres : ∀ z : Membership,
      ((fun z => if z.id == mid then { z with is_admin := true } else z) z).group_id
          = z.group_id
      ∧ ((fun z => if z.id == mid then { z with is_admin := true } else z) z).user_id
          = z.user_id := by
    intro z
    by_cases hc : z.id = mid <;> simp [hc]
  have hflt : ∀ (p : Membership → Bool), (∀ z ∈ db.groupMemberships,
      p ((fun z => if z.id == mid then { z with is_admin := true } else z) z) = p z) →
      (db.groupMemberships.map
        (fun z => if z.id == mid then { z with is_admin := true } else z)).filter p
      = (db.groupMemberships.filter p).map
        (fun z => if z.id == mid then { z with is_admin := true } else z) :=
    fun p hp => filter_map_comm db.groupMemberships _ p hp
  refine ⟨?_, ?_, ?_⟩
  · intro x hx
    rw [hgs] at hx
    obtain ⟨y, hy, rfl⟩ := List.mem_map.mp hx
    rw [hgm]
    by_cases hc : (y.id == gid) = true
    · rw [if_pos hc]
      show y.member_count = _
      rw [hflt _ (fun z _ => by by_cases hc : z.id = mid <;> simp [hc]), List.length_map]
      exact hmc y hy
    · rw [if_neg hc]
      show y.member_count = _
      rw [hflt _ (fun z _ => by by_cases hc : z.id = mid <;> simp [hc]), List.length_map]
      exact hmc y hy
  · show db1.groupMemberships.Pairwise _
    rw [hgm]
    apply List.Pairwise.map _ _ hpu
    intro x y hxy hcon
    exact hxy ⟨((hpres x).1.symm.trans hcon.1).trans (hpres y).1,
      ((hpres x).2.symm.trans hcon.2).trans (hpres y).2⟩
  · intro p q
    rw [hgm]
    rw [hflt (fun m => m.group_id == p && m.user_id == q)
      (fun z _ => by by_cases hc : z.id = mid <;> simp [hc]), List.length_map]

set_option maxHeartbeats 1000000 in
/-- A successful leave preserves both invariants, through every path:
non-owner departure, ownership transfer to an admin, transfer with
promotion, and departure from a group left empty (which survives). -/
theorem leaveGroup_inv (groupId userId now : Nat) (db db1 : DB)
    (hmc : MCInv db) (hpu : PairUnique db)
    (h : leaveGroup groupId userId now db = .ok db1) :
    MCInv db1 ∧ PairUnique db1 := by
  simp only [leaveGroup] at h
  split at h
  · simp at h
  · split at h
    · simp at h
    · rename_i g0 tl hflt
      split at h
      · simp at h
      · rename_i hmem
        have hne : (db.groupMemberships.filter
            (fun m => m.group_id == groupId && m.user_id == userId)).isEmpty = false := by
          simpa using hmem
        have hone := pair_filter_length_one groupId userId db.groupMemberships hpu hne
        by_cases howner : (g0.owner_id == userId) = true
        · rw [if_pos howner] at h
          cases hA : db.groupMemberships.filter
              (fun m => m.group_id == groupId && (m.is_admin && m.user_id != userId)) with
          | cons a tla =>
            rw [hA] at h
            rw [Except.ok.injEq] at h
            obtain ⟨hmcT, hpuT⟩ := transferOwner_inv a.user_id now groupId db
              { db with groups := (db.groups.map (fun x =>
                  if x.id == groupId then
                    { x with owner_id := a.user_id, updated_at := now } else x)) }
              hmc hpu rfl rfl
            exact removeMember_inv groupId userId now _ db1 hmcT hpuT hone
              (by rw [← h]) (by rw [← h])
          | nil =>
            rw [hA] at h
            cases hB : db.groupMemberships.filter
                (fun m => m.group_id == groupId && m.user_id != userId) with
            | cons mB tlb =>
              rw [hB] at h
              rw [Except.ok.injEq] at h
              obtain ⟨hmcT, hpuT, hlen⟩ := promote_inv mB.user_id now groupId mB.id db
                { db with
                  groups := (db.groups.map (fun x =>
                    if x.id == groupId then
                      { x with owner_id := mB.user_id, updated_at := now } else x)),
                  groupMemberships := (db.groupMemberships.map (fun x =>
                    if x.id == mB.id then { x with is_admin := true } else x)) }
                hmc hpu rfl rfl
              exact removeMember_inv groupId userId now _ db1 hmcT hpuT
                ((hlen groupId userId).trans hone) (by rw [← h]) (by rw [← h])
            | nil =>
              rw [hB] at h
              rw [Except.ok.injEq] at h
              exact removeMember_inv groupId userId now db db1 hmc hpu hone
                (by rw [← h]) (by rw [← h])
        · rw [if_neg howner] at h
          rw [Except.ok.injEq] at h
          exact removeMember_inv groupId userId now db db1 hmc hpu hone
            (by rw [← h]) (by rw [← h])

/-- A successful `deleteUser` re-establishes the member-count invariant
unconditionally (the global recount) and preserves pair uniqueness. -/
theorem deleteUser_inv (u adminId now : Nat) (db db1 : DB) (hpu : PairUnique db)
    (h : deleteUser u adminId now db = .ok db1) :
    MCInv db1 ∧ PairUnique db1 := by
  obtain ⟨rfl, -⟩ := deleteUser_ok_inv u adminId now db _ h
  constructor
  · intro x hx
    rw [deleteUserTx_groups] at hx
    obtain ⟨y, hy, rfl⟩ := List.mem_map.mp hx
    rw [deleteUserTx_groupMemberships]
  · show (deleteUserTx u now db).groupMemberships.Pairwise _
    rw [deleteUserTx_groupMemberships]
    have hpuR : PairUnique (resolveOwnedGroups u now (deactivateUser u now db)) :=
      foldResolve_pairUnique u now
        ((deactivateUser u now db).groups.filter (fun g => g.owner_id == u))
        (deactivateUser u now db) hpu
    exact hpuR.sublist (List.filter_sublist _)

/-- One step of any operation preserves both invariants; failed calls
change nothing. -/
theorem applyOp_inv (db : DB) (op : Op) (hmc : MCInv db) (hpu : PairUnique db) :
    MCInv (applyOp db op) ∧ PairUnique (applyOp db op) := by
  cases op with
  | join g u n i =>
    simp only [applyOp]
    split
    · rename_i m db2 heq
      exact joinGroup_inv g u n i db m db2 hmc hpu heq
    · exact ⟨hmc, hpu⟩
  | leave g u n =>
    simp only [applyOp]
    split
    · rename_i db2 heq
      exact leaveGroup_inv g u n db db2 hmc hpu heq
    · exact ⟨hmc, hpu⟩
  | delUser u a n =>
    simp only [applyOp]
    split
    · rename_i db2 heq
      exact deleteUser_inv u a n db db2 hpu heq
    · exact ⟨hmc, hpu⟩

/-- C5 (counterexample to the claim as stated): a state whose member
counts are all consistent but which holds two membership rows for the
same (group, user) pair satisfies the claim's starting hypothesis, yet a
single `leaveGroup` breaks the invariant: the source's membership DELETE
filters on (group_id, user_id), removing both rows, while the count is
decremented by exactly one. -/
theorem member_count_claim_counterexample :
    MCInv dbDup ∧ ¬ MCInv (applyOps dbDup [Op.leave 1 5 0]) :=
  ⟨by decide, by decide⟩

/-- C5 (amended): starting from a state where every group's
`member_count` matches its membership rows AND at most one membership
row exists per (group, user) pair, any sequence of `joinGroup`,
`leaveGroup` and `deleteUser` operations keeps both properties. -/
theorem member_count_invariant_preserved (db : DB) (ops : List Op)
    (hmc : MCInv db) (hpu : PairUnique db) :
    MCInv (applyOps db ops) ∧ PairUnique (applyOps db ops) := by
  induction ops generalizing db with
  | nil => exact ⟨hmc, hpu⟩
  | cons op t ih =>
    simp only [applyOps, List.foldl_cons]
    have h1 := applyOp_inv db op hmc hpu
    exact ih (applyOp db op) h1.1 h1.2

/-- Witness for C5 (amended): a join, a leave, and a user deletion on
the sample state. -/
theorem member_count_invariant_preserved_witness :
    MCInv (applyOps dbW [Op.join 1 4 100 50, Op.leave 2 4 101, Op.delUser 2 1 102])
    ∧ PairUnique (applyOps dbW [Op.join 1 4 100 50, Op.leave 2 4 101, Op.delUser 2 1 102]) :=
  member_count_invariant_preserved dbW
    [Op.join 1 4 100 50, Op.leave 2 4 101, Op.delUser 2 1 102] (by decide) (by decide)

end SchoolSocial
